import Mathlib

/-!
Vanilja: passage markup and navigation engine.

A shallow embedding of `src/classes/Passage.js`, `src/classes/Story.js` and
`Utils.visits` of `src/classes/Utils.js`: the link rewrites and the paragraph strip of
`Passage.render`, the passage index and the lookup of `Story`, and the navigation methods
`show`, `render`, `checkpoint`, `saveHash`, `restore` and `start` with the browser state
they touch.

JavaScript strings are modelled as `List Char` (one `Char` per character; strings with
lone surrogates are outside the model). The libraries (lodash, snarkdown, lz-string, JSON)
are parameters, gathered in `Lib`.
-/

namespace Vanilja

/-! ## String primitives used by `Passage.render` -/

/-- The characters that `.` of a JavaScript regular expression (without the `s` flag)
does not match: LF, CR, U+2028 and U+2029. -/
def isLineTerminator (c : Char) : Bool :=
  c == Char.ofNat 10 || c == Char.ofNat 13 || c == Char.ofNat 0x2028 || c == Char.ofNat 0x2029

/-- Model of `String.prototype.indexOf(pat)`: the index of the first occurrence of `pat`,
with `none` standing for the result `-1`. -/
def indexOf (pat : List Char) : List Char → Option Nat
  | [] => if pat.isEmpty then some 0 else none
  | c :: cs =>
    if pat.isPrefixOf (c :: cs) then some 0
    else (indexOf pat cs).map (fun i => i + 1)

/-- Model of `str.substr(start, length)` for a non-negative `start`. -/
def substr (s : List Char) (start : Nat) (length : Nat) : List Char :=
  (s.drop start).take length

/-- Model of `str.substr(start)` for a non-negative `start`. -/
def substrFrom (s : List Char) (start : Nat) : List Char :=
  s.drop start

/-! ## The display/target split (Passage.js lines 101-129 and 146-171)

The two replace callbacks contain the same block of code; it is embedded once. -/

/-- The display/target split performed on the captured link text: returns
`(display, target)` as the callbacks leave the two variables. -/
def splitLink (target : List Char) : List Char × List Char :=
  let display := target
  match indexOf ['|'] target with
  | some barIndex =>
    (substr target 0 barIndex, substrFrom target (barIndex + 1))
  | none =>
    match indexOf ['-', '>'] target with
    | some rightArrIndex =>
      (substr target 0 rightArrIndex, substrFrom target (rightArrIndex + 2))
    | none =>
      match indexOf ['<', '-'] target with
      | some leftArrIndex =>
        (substrFrom target (leftArrIndex + 2), substr target 0 leftArrIndex)
      | none => (display, target)

/-! ## Classic links: `result.replace(/\[\[(.*?)\]\]/g, callback)` -/

/-- The replacement the classic callback returns for a captured link text. -/
def classicCallback (target : List Char) : List Char :=
  let dt := splitLink target
  "<a href=\"javascript:void(0)\" data-passage=\"".toList ++ dt.2 ++ "\">".toList
    ++ dt.1 ++ "</a>".toList

/-- The tail `(.*?)\]\]` of the classic pattern, tried at the text after `[[`:
the lazy group takes the fewest characters (none of them a line terminator) after which
`]]` follows. Returns the captured group and the text after the match. -/
def lazyUntilClose : List Char → Option (List Char × List Char)
  | [] => none
  | c :: cs =>
    if [']', ']'].isPrefixOf (c :: cs) then some ([], cs.drop 1)
    else if isLineTerminator c then none
    else (lazyUntilClose cs).map (fun r => (c :: r.1, r.2))

/-- Global replace with the classic pattern, scanning left to right; `fuel` bounds the
number of scan steps (each step consumes at least one character). -/
def classicLinksAux : Nat → List Char → List Char
  | 0, s => s
  | _ + 1, [] => []
  | fuel + 1, c :: cs =>
    if ['[', '['].isPrefixOf (c :: cs) then
      match lazyUntilClose (cs.drop 1) with
      | some (target, after) => classicCallback target ++ classicLinksAux fuel after
      | none => c :: classicLinksAux fuel cs
    else c :: classicLinksAux fuel cs

/-- The classic link rewrite of `Passage.render` (lines 145-180). -/
def classicLinks (s : List Char) : List Char :=
  classicLinksAux s.length s

/-! ## Extended links: `result.replace(/\[\[(.*?)\]\]\{(.*?)\}/g, callback)` -/

/-- JavaScript `WhiteSpace` and `LineTerminator` code points, which `trim()` strips. -/
def isWhiteSpace (c : Char) : Bool :=
  let n := c.toNat
  n == 0x9 || n == 0xA || n == 0xB || n == 0xC || n == 0xD || n == 0x20 || n == 0xA0
    || n == 0x1680 || (0x2000 ≤ n && n ≤ 0x200A) || n == 0x2028 || n == 0x2029
    || n == 0x202F || n == 0x205F || n == 0x3000 || n == 0xFEFF

/-- Model of `str.trim()`. -/
def trim (s : List Char) : List Char :=
  ((s.dropWhile isWhiteSpace).reverse.dropWhile isWhiteSpace).reverse

/-- Model of `str.split(sep)` for a one-character separator. -/
def split (sep : Char) : List Char → List (List Char)
  | [] => [[]]
  | c :: cs =>
    if c = sep then [] :: split sep cs
    else
      match split sep cs with
      | [] => [[c]]
      | h :: t => (c :: h) :: t

/-- A plain JavaScript object with string keys, in insertion order. A value is `none`
when it is `undefined`. -/
abbrev AttrObj := List (List Char × Option (List Char))

/-- Model of `obj[key] = value`: an existing own property keeps its place and gets the
new value, a new one is appended. Assigning a string or `undefined` to `__proto__` goes
to the inherited setter, which ignores it, so no own property is created. -/
def AttrObj.set (obj : AttrObj) (key : List Char) (value : Option (List Char)) : AttrObj :=
  if key = "__proto__".toList then obj
  else if obj.any (fun kv => kv.1 = key) then
    obj.map (fun kv => if kv.1 = key then (key, value) else kv)
  else obj ++ [(key, value)]

/-- The array index a property key denotes, if it is a canonical one: decimal digits
without a leading zero, below `2^32 - 1`. -/
def arrayIndex? (key : List Char) : Option Nat :=
  match key with
  | [] => none
  | c :: cs =>
    if (c :: cs).all Char.isDigit && (c != '0' || cs.isEmpty) then
      let n := (c :: cs).foldl (fun acc d => 10 * acc + (d.toNat - 48)) 0
      if n < 4294967295 then some n else none
    else none

/-- Insertion of a property into a list ordered by array index. -/
def insertByIndex (n : Nat) (kv : List Char × Option (List Char)) :
    List (Nat × (List Char × Option (List Char))) → List (Nat × (List Char × Option (List Char)))
  | [] => [(n, kv)]
  | (m, x) :: rest =>
    if n < m then (n, kv) :: (m, x) :: rest else (m, x) :: insertByIndex n kv rest

/-- The own properties in the order `for (const attr in obj)` visits them: array-index
keys in ascending numeric order, then the other keys in insertion order. -/
def AttrObj.forIn (obj : AttrObj) : AttrObj :=
  let indexed := obj.foldl
    (fun acc kv => match arrayIndex? kv.1 with
      | some n => insertByIndex n kv acc
      | none => acc) []
  indexed.map (fun x => x.2) ++ obj.filter (fun kv => (arrayIndex? kv.1).isNone)

/-- Model of `strToObj` (lines 91-99). -/
def strToObj (str : List Char) : AttrObj :=
  let properties := (split ',' str).map trim
  properties.foldl
    (fun obj prop =>
      let tup := (split ':' prop).map trim
      obj.set (tup.headD []) (tup.tail.head?))
    []

/-- Model of `Array.prototype.join(sep)` on strings. -/
def join (sep : List Char) : List (List Char) → List Char
  | [] => []
  | [x] => x
  | x :: y :: rest => x ++ sep ++ join sep (y :: rest)

/-- The text a template literal produces for a property value. -/
def valueText (value : Option (List Char)) : List Char :=
  match value with
  | some v => v
  | none => "undefined".toList

/-- The replacement the extended callback returns for the captured link text and
attribute text (lines 82-141). -/
def extendedCallback (target attrs : List Char) : List Char :=
  let attrObj := strToObj attrs
  let dt := splitLink target
  let attrObj := attrObj.set "data-passage".toList (some dt.2)
  let attrObj := attrObj.set "href".toList (some "javascript:void(0)".toList)
  let attrArr := attrObj.forIn.map
    (fun kv => kv.1 ++ "=\"".toList ++ valueText kv.2 ++ "\"".toList)
  "<a ".toList ++ join " ".toList attrArr ++ ">".toList ++ dt.1 ++ "</a>".toList

/-- The opening brace. -/
def openBrace : Char := Char.ofNat 123

/-- The closing brace. -/
def closeBrace : Char := Char.ofNat 125

/-- The tail `(.*?)\}` of the extended pattern: the lazy attribute group takes the
fewest characters (none of them a line terminator) after which a closing brace follows. -/
def lazyUntilBrace : List Char → Option (List Char × List Char)
  | [] => none
  | c :: cs =>
    if c = closeBrace then some ([], cs)
    else if isLineTerminator c then none
    else (lazyUntilBrace cs).map (fun r => (c :: r.1, r.2))

/-- The part `\]\]\{(.*?)\}` of the extended pattern tried at one position. -/
def closeWithAttrs (s : List Char) : Option (List Char × List Char) :=
  if [']', ']', openBrace].isPrefixOf s then lazyUntilBrace (s.drop 3) else none

/-- The tail `(.*?)\]\]\{(.*?)\}` of the extended pattern, tried at the text after `[[`.
The first lazy group grows one character at a time (never over a line terminator) until
the rest of the pattern matches. Returns both groups and the text after the match. -/
def lazyUntilAttrs : List Char → Option (List Char × List Char × List Char)
  | [] => none
  | c :: cs =>
    match closeWithAttrs (c :: cs) with
    | some (attrs, after) => some ([], attrs, after)
    | none =>
      if isLineTerminator c then none
      else (lazyUntilAttrs cs).map (fun r => (c :: r.1, r.2.1, r.2.2))

/-- Global replace with the extended pattern, scanning left to right; `fuel` bounds the
number of scan steps (each step consumes at least one character). -/
def extendedLinksAux : Nat → List Char → List Char
  | 0, s => s
  | _ + 1, [] => []
  | fuel + 1, c :: cs =>
    if ['[', '['].isPrefixOf (c :: cs) then
      match lazyUntilAttrs (cs.drop 1) with
      | some (target, attrs, after) =>
        extendedCallback target attrs ++ extendedLinksAux fuel after
      | none => c :: extendedLinksAux fuel cs
    else c :: extendedLinksAux fuel cs

/-- The extended link rewrite of `Passage.render` (lines 80-142). -/
def extendedLinks (s : List Char) : List Char :=
  extendedLinksAux s.length s

/-- The two link rewrites in the order `Passage.render` applies them. -/
def rewriteLinks (s : List Char) : List Char :=
  classicLinks (extendedLinks s)

/-! ## Values, passages and the passage array -/

/-- JavaScript strings. -/
abbrev Str := List Char

/-- The JavaScript values the engine handles. Numbers are modelled as integers (passage ids
and indices), with `nan` for the `NaN` that `parseInt` can return. Objects and arrays, into
which the engine never looks, are kept as their JSON text. -/
inductive JVal where
  | undefined
  | null
  | bool (b : Bool)
  | num (n : Int)
  | nan
  | str (s : Str)
  | object (json : Str)
  deriving DecidableEq, Repr

/-- Errors raised by the engine or by the JavaScript runtime. -/
inductive JSError where
  /-- `new Error('There is no passage with the ID or name "' + idOrName + '"')`. -/
  | noPassage (idOrName : JVal)
  /-- A `TypeError` of the runtime; `what` names the expression that raised it. -/
  | typeError (what : String)
  /-- An error raised inside a library call. -/
  | library (name message : String)
  deriving DecidableEq, Repr

/-- A passage (Passage.js lines 11-40). -/
structure Passage where
  id : Int
  name : Str
  tags : List Str
  source : Str
  deriving DecidableEq, Repr

/-- What `Story.passage` hands back: `null`, `undefined` (reading an array index
that holds nothing) or a passage. -/
inductive Lookup where
  | null
  | undefined
  | found (p : Passage)
  deriving DecidableEq, Repr

/-- Whether the integer `n` is an array index: one of 0 to `2^32 - 2`. -/
def isArrayIndex (n : Int) : Bool :=
  decide (0 ≤ n) && decide (n < 4294967295)

/-- The sparse JavaScript array `p` built by the `Story` constructor. `slots` are its
elements from index 0 (`none` is a hole); `others` holds what was stored under an integer
key that is no array index, a negative one or one from `2^32 - 1` on, which is an
ordinary property and not an element. -/
structure PassageArray where
  slots : List (Option Passage)
  others : List (Int × Passage)
  deriving DecidableEq, Repr

/-- Writes `p` at list position `i`, padding with holes when the list is shorter. -/
def setSlot : List (Option Passage) → Nat → Passage → List (Option Passage)
  | [], 0, p => [some p]
  | [], i + 1, p => none :: setSlot [] i p
  | _ :: rest, 0, p => some p :: rest
  | x :: rest, i + 1, p => x :: setSlot rest i p

namespace PassageArray

/-- The empty array `[]`. -/
def empty : PassageArray := ⟨[], []⟩

/-- The `length` property. -/
def length (a : PassageArray) : Nat := a.slots.length

/-- Model of `a[id] = p` for an integer `id`. -/
def assign (a : PassageArray) (id : Int) (p : Passage) : PassageArray :=
  if isArrayIndex id then { a with slots := setSlot a.slots id.toNat p }
  else { a with others := (id, p) :: a.others.filter (fun kv => kv.1 ≠ id) }

/-- Model of reading `a[n]` for an integer `n`. -/
def get (a : PassageArray) (n : Int) : Lookup :=
  if isArrayIndex n then
    match a.slots.get? n.toNat with
    | some (some p) => Lookup.found p
    | _ => Lookup.undefined
  else
    match a.others.find? (fun kv => kv.1 = n) with
    | some kv => Lookup.found kv.2
    | none => Lookup.undefined

/-- Model of `a.filter(f)`: the elements, in index order and without the holes, on which
`f` holds. -/
def filter (a : PassageArray) (f : Passage → Bool) : List Passage :=
  (a.slots.filterMap (fun x => x)).filter f

end PassageArray

/-- The record that `saveHash` serialises and `restore` reads back. `history` is `none`
when the record read back has no `history` (the field reads as `undefined`); a record whose
`history` is present without being an array is outside the model. -/
structure SaveRecord where
  state : JVal
  history : Option (List JVal)
  checkpointName : JVal
  deriving DecidableEq, Repr

/-- What a template run leaves: the text produced, or the error raised when compiling or
running the template, the state object afterwards, and the arguments of the calls
`story.checkpoint(name)` made while the code ran (`none` is a call without a name), in the
order of the calls. Template code is handed the state object as `s` and may write to it;
`checkpoint` is the engine method passage code is meant to call (Story.js lines 104-106 and
450-454), and the calls listed are those of the passage itself and of the passages it
embeds with `story.render`. Passage code is told not to call `show` (lines 319-320):
template code that calls `show`, `restore` or `start`, or that assigns to the fields of
`window.story`, is outside the model, and so is the error report of an embedded passage. -/
structure TemplateRun where
  result : Except JSError Str
  state : JVal
  checkpoints : List (Option Str)

/-- The library functions the engine calls. They are parameters of the model. -/
structure Lib where
  /-- The lodash function `unescape`. -/
  unescape : Str → Str
  /-- The call `template(source)({ s: state })` of lodash. -/
  template : Str → JVal → TemplateRun
  /-- The Markdown converter `snarkdown`. -/
  snarkdown : Str → Str
  /-- `String.prototype.toLowerCase`. -/
  toLowerCase : Str → Str
  /-- The call `LZString.compressToBase64(JSON.stringify(record))`. -/
  encode : SaveRecord → Str
  /-- The call `JSON.parse(LZString.decompressFromBase64(hash))` followed by reading the
  three fields; `none` when it raises or yields `null`, so that nothing can be read. -/
  decode : Str → Option SaveRecord

/-- The attributes of one `tw-passagedata` element. `pid` is what `parseInt` returns
(`none` for `NaN`); an attribute that is absent reads as `none`. -/
structure PassageData where
  pid : Option Int
  name : Option Str
  tags : Option Str
  innerHTML : Str
  deriving DecidableEq, Repr

/-- The `Passage` constructor (Passage.js lines 11-40). -/
def Passage.new (lib : Lib) (id : Option Int) (name : Option Str) (tags : Option (List Str))
    (source : Str) : Passage :=
  { id := match id with
      | some n => if n = 0 then 1 else n
      | none => 1
    name := match name with
      | some n => if n.isEmpty then "Default".toList else n
      | none => "Default".toList
    tags := tags.getD []
    source := lib.unescape source }

/-- The passage index built by the `Story` constructor (Story.js lines 124-138). A
`tw-passagedata` without a `tags` attribute makes `tags.split` raise. A passage whose
`pid` is `NaN` is stored under the key `"NaN"`, which no lookup reads; it is left out. -/
def loadPassages (lib : Lib) : List PassageData → PassageArray → Except JSError PassageArray
  | [], p => .ok p
  | el :: rest, p =>
    match el.tags with
    | none => .error (JSError.typeError "tags.split")
    | some tags =>
      let passage := Passage.new lib el.pid el.name
        (some (if tags ≠ [] then split ' ' tags else [])) el.innerHTML
      match el.pid with
      | some id => loadPassages lib rest (p.assign id passage)
      | none => loadPassages lib rest p

/-! ## The story and the browser state it touches -/

/-- The state object given to `pushState` and `replaceState`. The browser stores a
structured clone of it, so a frame keeps the values of the moment it was written. -/
structure Frame where
  state : JVal
  history : List JVal
  checkpointName : JVal
  deriving DecidableEq, Repr

/-- The part of `window` and `document` that the engine reads and writes. -/
structure Host where
  /-- The entries of the session history under the current one, oldest first, each with
  its state object (`none` is `null`). -/
  below : List (Option Frame)
  /-- The state object of the current entry of the session history. -/
  top : Option Frame
  /-- The `tw-passage` element that `start` creates: its `innerHTML` and its `passage`
  attribute. It is `none` as long as `start` has not run. -/
  passageEl : Option (Str × Option Str)
  /-- The error message that replaced the content of `tw-story`, if one did, as the
  source and the error it is built from. -/
  errorShown : Option (String × JSError)
  /-- The global `window.passage`. -/
  passage : Lookup
  /-- The string last assigned to `document.title`. What reading the property gives back,
  with the white space stripped and collapsed, is not modelled. -/
  title : Str
  /-- The value of `window.location.hash`. -/
  locationHash : Str
  /-- The names of the events dispatched so far, oldest first. -/
  events : List String
  deriving DecidableEq, Repr

/-- The session history as a list of frames, oldest first; the last is the current one. -/
def Host.frames (h : Host) : List (Option Frame) := h.below ++ [h.top]

/-- Model of `window.history.pushState(frame, "", "")`. -/
def Host.pushState (h : Host) (f : Frame) : Host :=
  { h with below := h.below ++ [h.top], top := some f }

/-- Model of `window.history.replaceState(frame, "", "")`. -/
def Host.replaceState (h : Host) (f : Frame) : Host :=
  { h with top := some f }

/-- The fields of a `Story` (Story.js lines 20-183), together with the browser state.
`history` is `none` when the field holds `undefined`, which a failed `restore` can leave.
`errorMessage` is kept as the source and the error the message text is built from. -/
structure Story where
  name : Str
  startPassage : JVal
  history : Option (List JVal)
  state : JVal
  checkpointName : JVal
  ignoreErrors : Bool
  errorMessage : Option (String × JSError)
  atCheckpoint : Bool
  passages : PassageArray
  host : Host
  deriving DecidableEq, Repr

namespace Story

/-- Model of `Utils.event(name, detail)`: the event `vanilja:` + name is dispatched on the
`tw-story` element, which the page holds. No listener of the page changes the engine. -/
def event (s : Story) (name : String) : Story :=
  { s with host := { s.host with events := s.host.events ++ ["vanilja:" ++ name] } }

/-- An error event reaches the listener the constructor installs (lines 174-182): the
message is stored and, unless `ignoreErrors` is set, replaces the content of `tw-story`. -/
def onError (s : Story) (error : JSError) (source : String) : Story :=
  let s := s.event "error"
  let s := { s with errorMessage := some (source, error) }
  if !s.ignoreErrors then { s with host := { s.host with errorShown := some (source, error) } }
  else s

/-- Model of `Story.passage(idOrName)` (lines 291-313). -/
def passage (lib : Lib) (s : Story) (idOrName : JVal) : Lookup :=
  match idOrName with
  | JVal.num n =>
    if n < s.passages.length then s.passages.get n else Lookup.null
  | JVal.nan => Lookup.null
  | JVal.str name =>
    let result := s.passages.filter (fun p => p.name = name)
    match result with
    | first :: _ => Lookup.found first
    | [] =>
      let result := s.passages.filter
        (fun p => lib.toLowerCase p.name = lib.toLowerCase name)
      match result with
      | first :: _ => Lookup.found first
      | [] => Lookup.null
  | _ => Lookup.null

/-- Model of `Story.checkpoint(name)` (lines 461-477); `none` is a call without a name. -/
def checkpoint (s : Story) (name : Option Str) : Story :=
  let s :=
    match name with
    | some n =>
      { s with host := { s.host with title := s.name ++ ": ".toList ++ n },
               checkpointName := JVal.str n }
    | none => { s with checkpointName := JVal.str [] }
  let s := { s with atCheckpoint := true }
  s.event "checkpoint:adding"

/-- The calls `story.checkpoint(name)` of a template run, made one after the other. -/
def checkpoints (s : Story) : List (Option Str) → Story
  | [] => s
  | name :: rest => checkpoints (s.checkpoint name) rest

end Story

/-! ## The rest of `Passage.render` -/

/-- The scan of `newResult.replace(/^<p>|<\/p>$|<\/p>\n$/g, "")` past the start of the
text: a closing paragraph tag is removed when it ends the text, with or without a
newline after it. -/
def stripClosing : List Char → List Char
  | [] => []
  | c :: cs =>
    if c :: cs = "</p>".toList then []
    else if c :: cs = "</p>\n".toList then []
    else c :: stripClosing cs

/-- Model of `newResult.replace(/^<p>|<\/p>$|<\/p>\n$/g, "")`. -/
def stripParagraph (s : List Char) : List Char :=
  match s with
  | '<' :: 'p' :: '>' :: rest => stripClosing rest
  | _ => stripClosing s

/-- Model of `Passage.render(source)` (Passage.js lines 49-190) against the story `s`,
which stands for `window.story`. Returns the markup and the story, in which the template
may have written to the state and called `checkpoint`, and an error of the template stage
is reported. -/
def Passage.render (lib : Lib) (p : Passage) (s : Story) (source : Option Str) :
    Str × Story :=
  let source := source.getD p.source
  let run := lib.template source s.state
  let s := { s with state := run.state }
  let s := s.checkpoints run.checkpoints
  let rs : Str × Story :=
    match run.result with
    | .ok r => (r, s)
    | .error e => ([], s.onError e "Passage.render() using template()")
  let result := classicLinks (extendedLinks rs.1)
  let newResult := lib.snarkdown result
  if !("</p>\n".toList.isSuffixOf result) && "</p>\n".toList.isSuffixOf newResult then
    (stripParagraph newResult, rs.2)
  else (newResult, rs.2)

/-! ## Navigation (Story.js lines 200-550) -/

namespace Story

/-- The frame `{ state, history, checkpointName }` that `show` hands to the browser. -/
def frame (s : Story) (history : List JVal) : Frame :=
  { state := s.state, history := history, checkpointName := s.checkpointName }

/-- The `try` block of `show` (lines 402-407): the passage is rendered into the passage
element and the element gets the passage name; whatever raises there is reported through
`Story.emitError` and not passed on. -/
def display (lib : Lib) (s : Story) (passage : Lookup) : Story :=
  match passage with
  | Lookup.found p =>
    let rs := p.render lib s none
    match rs.2.host.passageEl with
    | some _ =>
      { rs.2 with host := { rs.2.host with passageEl := some (rs.1, some p.name) } }
    | none => rs.2.onError (JSError.typeError "this.passageEl.innerHTML") "Story.show()"
  | _ => s.onError (JSError.typeError "passage.render") "Story.show()"

end Story

/-- The block under `if (noHistory === false)` of `show` (lines 358-397): the id of the
passage is pushed on the history and the frame is written to the session history, as a
new entry when `atCheckpoint` is set and over the current entry otherwise. Reading
`passage.id` of `undefined` raises, and so does `push` when the history is not an array.
The browser is taken to accept the write, so the `catch` branch is not entered. -/
def Story.recordVisit (s : Story) (passage : Lookup) : Except (JSError × Story) Story :=
  match s.history, passage with
  | some h, Lookup.found p =>
    let history := h ++ [JVal.num p.id]
    let s := { s with history := some history }
    let s :=
      if s.atCheckpoint then { s with host := s.host.pushState (s.frame history) }
      else { s with host := s.host.replaceState (s.frame history) }
    .ok (s.event "checkpoint:added")
  | _, _ => .error (JSError.typeError "this.history.push(passage.id)", s)

/-- The end of `show` (lines 399-421): `window.passage` is set, `atCheckpoint` is cleared,
the passage is displayed and `vanilja:story:shown` is dispatched. -/
def Story.present (lib : Lib) (s : Story) (passage : Lookup) : Story :=
  let s := { s with host := { s.host with passage := passage }, atCheckpoint := false }
  let s := s.display lib passage
  s.event "story:shown"

/-- Model of `Story.show(idOrName, noHistory)` (lines 328-422). An error carries the story
as it is when the error leaves `show`. -/
def Story.show (lib : Lib) (s : Story) (idOrName : JVal) (noHistory : Bool) :
    Except (JSError × Story) Story :=
  match s.passage lib idOrName with
  | Lookup.null => .error (JSError.noPassage idOrName, s)
  | passage =>
    let s := s.event "story:hidden"
    let s := s.event "story:showing"
    let recorded := if noHistory = false then s.recordVisit passage else .ok s
    match recorded with
    | .error e => .error e
    | .ok s => .ok (s.present lib passage)

namespace Story

/-- Model of `Story.render(idOrName)` (lines 433-448). When no passage is found the call
`this.emitError(...)` raises, `emitError` being a static method. -/
def render (lib : Lib) (s : Story) (idOrName : JVal) : Except (JSError × Story) (Str × Story) :=
  match s.passage lib idOrName with
  | Lookup.found p => .ok (p.render lib s none)
  | _ => .error (JSError.typeError "this.emitError", s)

/-- The record `saveHash` serialises. -/
def saveRecord (s : Story) : SaveRecord :=
  { state := s.state, history := s.history, checkpointName := s.checkpointName }

/-- Model of `Story.saveHash()` (lines 503-513). -/
def saveHash (lib : Lib) (s : Story) : Str :=
  lib.encode s.saveRecord

/-- The three assignments of `restore` (lines 527-529). -/
def assign (s : Story) (save : SaveRecord) : Story :=
  { s with state := save.state, history := save.history,
           checkpointName := save.checkpointName }

/-- Model of `Story.restore(hash)` (lines 523-550): the story afterwards and the boolean
returned. Nothing raised inside the `try` block leaves `restore`: reading a field of what
the token decodes to, reading `this.history.length` and `show` can raise there. -/
def restore (lib : Lib) (s : Story) (hash : Str) : Story × Bool :=
  match lib.decode hash with
  | none => (s.event "restore:error", false)
  | some save =>
    let s := s.assign save
    match s.history with
    | none => (s.event "restore:error", false)
    | some h =>
      match s.show lib (h.getLast?.getD JVal.undefined) true with
      | .ok s => (s.event "restore:success", true)
      | .error e => (e.2.event "restore:error", false)

/-- Model of `hash.replace("#", "")`: the first `#` is removed. -/
def dropHashSign : Str → Str
  | [] => []
  | c :: cs => if c = '#' then cs else c :: dropHashSign cs

/-- Model of `Story.start(el)` (lines 200-281) for a story without user scripts and
styles: the passage element is created as the new content of `tw-story`,
`vanilja:story:started` is dispatched, and the story is restored from the location hash
or begun at the start passage. -/
def start (lib : Lib) (s : Story) : Except (JSError × Story) Story :=
  let s := { s with host := { s.host with passageEl := some ([], none), errorShown := none } }
  let s := { s with host := { s.host with events := s.host.events ++ ["vanilja:story:started"] } }
  let begin (s : Story) : Except (JSError × Story) Story :=
    match s.show lib s.startPassage false with
    | .ok s => .ok { s with atCheckpoint := true }
    | .error e => .error e
  if s.host.locationHash = [] then begin s
  else
    match s.restore lib (dropHashSign s.host.locationHash) with
    | (s, true) => .ok s
    | (s, false) => begin s

end Story

/-- A story as the constructor leaves it (lines 61-122), over a given passage array and
browser state. -/
def Story.fresh (name : Str) (startPassage : JVal) (passages : PassageArray) (host : Host) :
    Story :=
  { name := name, startPassage := startPassage, history := some [], state := JVal.object "\x7b\x7d".toList,
    checkpointName := JVal.str [], ignoreErrors := false, errorMessage := none,
    atCheckpoint := false, passages := passages, host := host }

/-- A browser in which nothing has happened yet: one history entry without a state
object, no passage element, nothing dispatched. -/
def Host.initial : Host :=
  { below := [], top := none, passageEl := none, errorShown := none,
    passage := Lookup.undefined, title := [], locationHash := [], events := [] }

/-! ## Reference definitions for the link syntax -/

/-- Whether `pat` occurs in `s`. -/
def occursIn (pat s : List Char) : Bool := (indexOf pat s).isSome

/-- Whether `s` holds a line break. -/
def hasLineBreak (s : List Char) : Bool := s.any isLineTerminator

/-- The text before the first occurrence of `sep` and the text after it, when `sep`
occurs. -/
def cutAtFirst (sep : List Char) : List Char → Option (List Char × List Char)
  | [] => none
  | c :: cs =>
    if sep.isPrefixOf (c :: cs) then some ([], (c :: cs).drop sep.length)
    else (cutAtFirst sep cs).map (fun r => (c :: r.1, r.2))

/-- The reference split of a link body into `(display, target)`: a bar wins over the
arrows and the right arrow over the left one. -/
def splitLinkSpec (body : List Char) : List Char × List Char :=
  match cutAtFirst ['|'] body with
  | some (before, after) => (before, after)
  | none =>
    match cutAtFirst ['-', '>'] body with
    | some (before, after) => (before, after)
    | none =>
      match cutAtFirst ['<', '-'] body with
      | some (before, after) => (after, before)
      | none => (body, body)

/-- The minimal anchor: `href` and `data-passage` only. -/
def plainAnchor (display target : List Char) : List Char :=
  "<a href=\"javascript:void(0)\" data-passage=\"".toList ++ target ++ "\">".toList
    ++ display ++ "</a>".toList

/-- The anchor of an extended link with a given display text and target: the attributes
the braces name, with `data-passage` set to the target and `href` to the void script, and
the display text as content. -/
def extendedAnchor (attrs display target : List Char) : List Char :=
  let attrObj := ((strToObj attrs).set "data-passage".toList (some target)).set
    "href".toList (some "javascript:void(0)".toList)
  "<a ".toList
    ++ join " ".toList
      (attrObj.forIn.map (fun kv => kv.1 ++ "=\"".toList ++ valueText kv.2 ++ "\"".toList))
    ++ ">".toList ++ display ++ "</a>".toList

/-- A text free of the link separators, of `]]` and of line breaks. -/
def plainText (s : List Char) : Bool :=
  !occursIn ['|'] s && !occursIn ['-', '>'] s && !occursIn ['<', '-'] s
    && !occursIn [']', ']'] s && !hasLineBreak s

/-- What `rewriteLinks_single` asks of a link body. -/
def OkBody (s : List Char) : Prop :=
  hasLineBreak s = false ∧ occursIn [']', ']'] s = false ∧ s.getLast? ≠ some ']'

/-! ## Reference definitions for the passage lookup -/

/-- The passages of the store in store order: by index, the holes left out. -/
def storeOrder (a : PassageArray) : List Passage :=
  a.slots.filterMap (fun x => x)

/-- The reference lookup by name: the first passage in store order with exactly this name,
else the first whose name is the same ignoring case, else `null`. -/
def passageByNameSpec (lib : Lib) (s : Story) (name : Str) : Lookup :=
  match (storeOrder s.passages).find? (fun p => p.name = name) with
  | some p => Lookup.found p
  | none =>
    match (storeOrder s.passages).find?
        (fun p => lib.toLowerCase p.name = lib.toLowerCase name) with
    | some p => Lookup.found p
    | none => Lookup.null

/-! ## Concrete stories for the runs below -/

/-- A library instance for concrete runs. `unescape`, the template call and the Markdown
converter return their input, as the real ones do on text without entities, template tags
and Markdown; `toLowerCase` maps the ASCII letters; the codec knows the record `r` under
the token `saved`. -/
def Lib.plain (r : SaveRecord) : Lib :=
  { unescape := fun x => x
    template := fun source state => { result := .ok source, state := state, checkpoints := [] }
    snarkdown := fun x => x
    toLowerCase := fun x => x.map Char.toLower
    encode := fun _ => "saved".toList
    decode := fun hash => if hash = "saved".toList then some r else none }

/-- The record of a story that has not shown a passage yet. -/
def freshRecord : SaveRecord :=
  { state := JVal.object "\x7b\x7d".toList, history := some [], checkpointName := JVal.str [] }

/-- Three `tw-passagedata` elements with the ids 1, 2 and 3. -/
def demoData : List PassageData :=
  [ { pid := some 1, name := some "Start".toList, tags := some [], innerHTML := "Hello".toList },
    { pid := some 2, name := some "Hall".toList, tags := some [], innerHTML := "[[Start]]".toList },
    { pid := some 3, name := some "Attic".toList, tags := some "dark".toList,
      innerHTML := "Dust".toList } ]

/-- The passage array the constructor builds from `demoData`: a hole at index 0, then
the three passages. -/
def demoPassages : PassageArray :=
  { slots := [none,
      some { id := 1, name := "Start".toList, tags := [], source := "Hello".toList },
      some { id := 2, name := "Hall".toList, tags := [], source := "[[Start]]".toList },
      some { id := 3, name := "Attic".toList, tags := ["dark".toList],
             source := "Dust".toList }],
    others := [] }

/-- A story over `demoPassages` as the constructor leaves it, in a browser where `start`
has created the passage element. -/
def demoStory : Story :=
  Story.fresh "Demo".toList (JVal.num 1) demoPassages
    { Host.initial with passageEl := some ([], none) }

/-- A record saved after the passages 1 and 3 were visited. -/
def visitedRecord : SaveRecord :=
  { state := JVal.object "\x7b\"gold\":3\x7d".toList,
    history := some [JVal.num 1, JVal.num 3],
    checkpointName := JVal.str "attic".toList }

/-- The story `demoStory` after the visits of `visitedRecord`. -/
def visitedStory : Story :=
  { demoStory with state := visitedRecord.state, history := visitedRecord.history,
                   checkpointName := visitedRecord.checkpointName }

/-- A record whose history ends in the id 999, which `demoPassages` does not hold. -/
def strangerRecord : SaveRecord :=
  { state := JVal.object "\x7b\"gold\":7\x7d".toList,
    history := some [JVal.num 1, JVal.num 999],
    checkpointName := JVal.str "lost".toList }

/-- The source of a passage whose template code writes to the state. -/
def markingSource : Str := "<% s.seen = true %>Hello".toList

/-- The library `Lib.plain r` with a template call that knows `markingSource`: the run
gives the text `Hello` and leaves `seen` set in the state, which was the empty object. -/
def Lib.marking (r : SaveRecord) : Lib :=
  { Lib.plain r with
    template := fun source state =>
      if source = markingSource then
        { result := .ok "Hello".toList, state := JVal.object "\x7b\"seen\":true\x7d".toList,
          checkpoints := [] }
      else { result := .ok source, state := state, checkpoints := [] } }

/-- The record of a story with the empty state that has visited passage 1. -/
def markingRecord : SaveRecord :=
  { state := JVal.object "\x7b\x7d".toList, history := some [JVal.num 1],
    checkpointName := JVal.str [] }

/-- A story whose one passage has the source `markingSource`, after a visit of it that
left the state empty (the state was reset since). -/
def markingStory : Story :=
  { Story.fresh "Marks".toList (JVal.num 1)
      { slots := [none, some { id := 1, name := "Start".toList, tags := [],
                               source := markingSource }],
        others := [] }
      { Host.initial with passageEl := some ([], none) } with
    history := markingRecord.history }

/-- The source of a passage whose template code sets a checkpoint without a name. -/
def checkpointSource : Str := "<% story.checkpoint() %>Hall".toList

/-- The source of a passage whose template code sets the checkpoint `B`. -/
def namedCheckpointSource : Str := "<% story.checkpoint(\"B\") %>Dust".toList

/-- The library `Lib.plain r` with a template call that knows `checkpointSource` and
`namedCheckpointSource`: the runs give the text after the code and make the one
`checkpoint` call of the code. -/
def Lib.checkpointing (r : SaveRecord) : Lib :=
  { Lib.plain r with
    template := fun source state =>
      if source = checkpointSource then
        { result := .ok "Hall".toList, state := state, checkpoints := [none] }
      else if source = namedCheckpointSource then
        { result := .ok "Dust".toList, state := state, checkpoints := [some "B".toList] }
      else { result := .ok source, state := state, checkpoints := [] } }

/-- A story as the constructor leaves it, over three passages of which the second and the
third set a checkpoint in their template code, in a browser where `start` has created the
passage element. -/
def checkpointStory : Story :=
  Story.fresh "Demo".toList (JVal.num 1)
    { slots := [none,
        some { id := 1, name := "Start".toList, tags := [], source := "Hello".toList },
        some { id := 2, name := "Hall".toList, tags := [], source := checkpointSource },
        some { id := 3, name := "Attic".toList, tags := [], source := namedCheckpointSource }],
      others := [] }
    { Host.initial with passageEl := some ([], none) }

/-- The record of `checkpointStory` after a visit of passage 3 whose checkpoint name was
reset since. -/
def atticRecord : SaveRecord :=
  { state := JVal.object "\x7b\x7d".toList, history := some [JVal.num 3],
    checkpointName := JVal.str [] }

/-- The story `checkpointStory` with the fields of `atticRecord`. -/
def atticStory : Story :=
  { checkpointStory with history := atticRecord.history }

/-- The record the text `\x7b\x7d` parses to: none of the three fields is there. -/
def emptyRecord : SaveRecord :=
  { state := JVal.undefined, history := none, checkpointName := JVal.undefined }

/-- The story `demoStory` with the fields of `strangerRecord`. -/
def strangerStory : Story :=
  { demoStory with state := strangerRecord.state, history := strangerRecord.history,
                   checkpointName := strangerRecord.checkpointName }

/-! ## The text before the Markdown pass -/

/-- The text `result` of `Passage.render` as it stands before the Markdown pass (lines
56-180): what the template produced, or the empty text when the template raised, with
both link rewrites applied. -/
def Passage.preMarkdown (lib : Lib) (p : Passage) (s : Story) (source : Option Str) : Str :=
  let run := lib.template (source.getD p.source) s.state
  classicLinks (extendedLinks
    (match run.result with
      | .ok r => r
      | .error _ => []))

/-- The library `Lib.plain r` with a Markdown converter that wraps its input in one
paragraph. -/
def Lib.wrapping (r : SaveRecord) : Lib :=
  { Lib.plain r with snarkdown := fun x => "<p>".toList ++ x ++ "</p>\n".toList }

/-! ## `Utils.visits` (Utils.js lines 61-81) -/

/-- What `Utils.visits` returns: a number or an array of numbers. -/
inductive VisitsResult where
  | number (n : Nat)
  | array (ns : List Nat)
  deriving DecidableEq, Repr

/-- The loop of `Utils.visits` (lines 65-75) over the references still to be read, with
the variables `count` and `counts`. `count` is assigned only when the reference resolves
to a passage; `window.story.history.filter` raises when the history is not an array. -/
def Utils.visitsLoop (lib : Lib) (s : Story) :
    List JVal → List JVal → List Nat → Except JSError (List Nat)
  | [], _, counts => .ok counts
  | ref :: rest, count, counts =>
    match s.passage lib ref with
    | Lookup.found p =>
      match s.history with
      | some h =>
        let count := h.filter (fun id => id = JVal.num p.id)
        Utils.visitsLoop lib s rest count (counts ++ [count.length])
      | none => .error (JSError.typeError "window.story.history.filter")
    | _ => Utils.visitsLoop lib s rest count (counts ++ [count.length])

/-- Model of `Utils.visits(...passages)` (lines 61-81) for the story `s`, which stands for
`window.story`. -/
def Utils.visits (lib : Lib) (s : Story) (passages : List JVal) :
    Except JSError VisitsResult :=
  match Utils.visitsLoop lib s passages [] [] with
  | .error e => .error e
  | .ok counts =>
    match counts with
    | [n] => .ok (VisitsResult.number n)
    | _ => .ok (VisitsResult.array counts)

/-- The reference count of one passage reference: how often the id of the passage it
resolves to occurs in the history, and 0 when it resolves to no passage. -/
def visitCount (lib : Lib) (s : Story) (ref : JVal) : Nat :=
  match s.passage lib ref, s.history with
  | Lookup.found p, some h => (h.filter (fun id => id = JVal.num p.id)).length
  | _, _ => 0

/-! ## Runs of engine calls -/

/-- One call of an engine method. -/
inductive Call where
  | start
  | show (idOrName : JVal) (noHistory : Bool)
  | checkpoint (name : Option Str)
  | render (idOrName : JVal)
  | restore (hash : Str)
  deriving DecidableEq, Repr

/-- The story a call leaves. When the call raises, that is the story as it is when the
error leaves the call. -/
def Story.after (lib : Lib) (s : Story) : Call → Story
  | Call.start =>
    match s.start lib with
    | .ok t => t
    | .error e => e.2
  | Call.show idOrName noHistory =>
    match s.show lib idOrName noHistory with
    | .ok t => t
    | .error e => e.2
  | Call.checkpoint name => s.checkpoint name
  | Call.render idOrName =>
    match s.render lib idOrName with
    | .ok r => r.2
    | .error e => e.2
  | Call.restore hash => (s.restore lib hash).1

/-- The story a sequence of calls leaves. -/
def Story.afterAll (lib : Lib) (s : Story) : List Call → Story
  | [] => s
  | c :: rest => Story.afterAll lib (s.after lib c) rest

/-- Whether `v` is the id of a passage the array holds, as an element or under a key that
is no array index. -/
def PassageArray.holdsId (a : PassageArray) (v : JVal) : Bool :=
  a.slots.any (fun slot =>
      match slot with
      | some p => v = JVal.num p.id
      | none => false)
    || a.others.any (fun kv => v = JVal.num kv.2.id)

/-- Whether every entry of the history is the id of a passage in the store. A history
that is `undefined` has no entries. -/
def Story.historyInStore (s : Story) : Bool :=
  match s.history with
  | some h => h.all (fun v => s.passages.holdsId v)
  | none => true

/-- Whether a restore token is harmless for the history: it does not decode, or the record
it decodes to has no history or a history of ids of stored passages only. -/
def Story.tokenInStore (lib : Lib) (s : Story) (hash : Str) : Bool :=
  match lib.decode hash with
  | none => true
  | some save =>
    match save.history with
    | some h => h.all (fun v => s.passages.holdsId v)
    | none => true

/-- Whether the token a call hands to `restore` is harmless for the history; `start`
hands over the location hash, when there is one. -/
def Story.callInStore (lib : Lib) (s : Story) : Call → Bool
  | Call.start =>
    s.host.locationHash = [] || s.tokenInStore lib (Story.dropHashSign s.host.locationHash)
  | Call.restore hash => s.tokenInStore lib hash
  | _ => true

/-- Whether every restore token of a run is harmless for the history. -/
def Story.runInStore (lib : Lib) (s : Story) : List Call → Bool
  | [] => true
  | c :: rest => s.callInStore lib c && Story.runInStore lib (s.after lib c) rest

/-- A story over `demoPassages` as the constructor leaves it, in a browser in which
nothing has happened yet. -/
def newStory : Story :=
  Story.fresh "Demo".toList (JVal.num 1) demoPassages Host.initial

/-- A record whose history holds the id 999, which `demoPassages` does not hold, and ends
in the id 1. -/
def detourRecord : SaveRecord :=
  { state := JVal.object "\x7b\x7d".toList,
    history := some [JVal.num 999, JVal.num 1],
    checkpointName := JVal.str [] }

/-- A run of calls on `newStory`: the story is started, two passages are shown around a
checkpoint, a passage is rendered and the story is restored from the token `saved`. -/
def demoRun : List Call :=
  [Call.start, Call.show (JVal.num 2) false, Call.checkpoint none,
    Call.show (JVal.str "attic".toList) false, Call.render (JVal.num 1),
    Call.restore "saved".toList]

/-- The `checkpoint` calls made when what a lookup gave is rendered with the state
`state`: those of the template run of the passage, and none where there is no passage to
render. -/
def Lookup.checkpoints (lib : Lib) (state : JVal) : Lookup → List (Option Str)
  | Lookup.found p => (lib.template p.source state).checkpoints
  | _ => []

/-- The `checkpoint` calls made by the template code that `show(idOrName)` and
`render(idOrName)` run on the story `s`. -/
def Story.shownCheckpoints (lib : Lib) (s : Story) (idOrName : JVal) : List (Option Str) :=
  (s.passage lib idOrName).checkpoints lib s.state

/-- The `checkpoint` calls made by the template code that `restore(hash)` runs: those of
the passage the last entry of the decoded history resolves to, rendered with the decoded
state; none when `restore` fails before it renders. -/
def Story.restoreCheckpoints (lib : Lib) (s : Story) (hash : Str) : List (Option Str) :=
  match lib.decode hash with
  | none => []
  | some save =>
    match save.history with
    | none => []
    | some h => (s.passage lib (h.getLast?.getD JVal.undefined)).checkpoints lib save.state

/-- The `checkpoint` calls made by the template code a call runs, `start` apart. -/
def Story.callCheckpoints (lib : Lib) (s : Story) : Call → List (Option Str)
  | Call.show idOrName _ => s.shownCheckpoints lib idOrName
  | Call.render idOrName => s.shownCheckpoints lib idOrName
  | Call.restore hash => s.restoreCheckpoints lib hash
  | _ => []

/-- Two stories agree on what navigation records, the state apart: the history, the
checkpoint fields, the passages and the session history of the browser. -/
def SameCore (a b : Story) : Prop :=
  a.history = b.history ∧ a.checkpointName = b.checkpointName
    ∧ a.atCheckpoint = b.atCheckpoint ∧ a.passages = b.passages
    ∧ a.host.below = b.host.below ∧ a.host.top = b.host.top

/-! ## Lemmas on the string primitives -/

theorem cutAtFirst_of_indexOf (sep : List Char) (hsep : sep ≠ []) (s : List Char) :
    cutAtFirst sep s =
      (indexOf sep s).map (fun i => (substr s 0 i, substrFrom s (i + sep.length))) := by
  induction s with
  | nil =>
    cases sep with
    | nil => exact absurd rfl hsep
    | cons a as => simp [cutAtFirst, indexOf]
  | cons c cs ih =>
    unfold cutAtFirst indexOf
    by_cases h : sep.isPrefixOf (c :: cs) = true
    · simp [h, substr, substrFrom]
    · simp only [h, if_false, ih]
      cases indexOf sep cs with
      | none => rfl
      | some i =>
        have e : i + 1 + sep.length = (i + sep.length) + 1 := by omega
        simp [substr, substrFrom, e]

theorem splitLink_eq_spec (body : List Char) : splitLink body = splitLinkSpec body := by
  unfold splitLink splitLinkSpec
  rw [cutAtFirst_of_indexOf _ (by simp), cutAtFirst_of_indexOf _ (by simp),
    cutAtFirst_of_indexOf _ (by simp)]
  cases indexOf ['|'] body <;> cases indexOf ['-', '>'] body <;>
    cases indexOf ['<', '-'] body <;> rfl

theorem isPrefixOf_pair (a b c : Char) (l : List Char) :
    [a, b].isPrefixOf (c :: l) = true ↔ c = a ∧ l.head? = some b := by
  cases l with
  | nil => simp [List.isPrefixOf]
  | cons d t =>
    simp only [List.isPrefixOf, Bool.and_true, Bool.and_eq_true, beq_iff_eq, List.head?_cons,
      Option.some.injEq]
    constructor
    · rintro ⟨h1, h2⟩; exact ⟨h1.symm, h2.symm⟩
    · rintro ⟨h1, h2⟩; exact ⟨h1.symm, h2.symm⟩

theorem indexOf_cons (pat : List Char) (c : Char) (cs : List Char) :
    indexOf pat (c :: cs) =
      if pat.isPrefixOf (c :: cs) then some 0 else (indexOf pat cs).map (fun i => i + 1) := by
  rw [indexOf]

theorem lazyUntilClose_cons (c : Char) (cs : List Char) :
    lazyUntilClose (c :: cs) =
      if [']', ']'].isPrefixOf (c :: cs) then some ([], cs.drop 1)
      else if isLineTerminator c then none
      else (lazyUntilClose cs).map (fun r => (c :: r.1, r.2)) := by
  rw [lazyUntilClose]

theorem indexOf_cons_none (pat : List Char) (c : Char) (cs : List Char) :
    indexOf pat (c :: cs) = none ↔ pat.isPrefixOf (c :: cs) = false ∧ indexOf pat cs = none := by
  rw [indexOf_cons]
  by_cases h : pat.isPrefixOf (c :: cs) = true
  · simp [h]
  · simp [h]

theorem classicLinksAux_nil (n : Nat) : classicLinksAux n [] = [] := by
  cases n <;> rfl

theorem extendedLinksAux_nil (n : Nat) : extendedLinksAux n [] = [] := by
  cases n <;> rfl

/-- A body without `]]` that does not end in `]` cannot make `]]` start inside it, whatever
follows its closing brackets. -/
theorem not_close_inside (c : Char) (body rest : List Char)
    (h : indexOf [']', ']'] (c :: body) = none) (hl : (c :: body).getLast? ≠ some ']') :
    [']', ']'].isPrefixOf (c :: (body ++ ']' :: rest)) = false := by
  rw [indexOf_cons_none] at h
  rw [Bool.eq_false_iff]
  intro hp
  rw [isPrefixOf_pair] at hp
  cases body with
  | nil => exact hl (by simp [hp.1])
  | cons d t =>
    have : [']', ']'].isPrefixOf (c :: d :: t) = true := by
      rw [isPrefixOf_pair]
      exact ⟨hp.1, by simpa using hp.2⟩
    rw [this] at h
    exact absurd h.1 (by simp)

theorem getLast?_tail_ne (c : Char) (body : List Char) (x : Char)
    (hl : (c :: body).getLast? ≠ some x) : body.getLast? ≠ some x := by
  cases body with
  | nil => simp
  | cons d t => simpa [List.getLast?_cons_cons] using hl

theorem lazyUntilClose_body (body rest : List Char)
    (hnl : hasLineBreak body = false) (hc : occursIn [']', ']'] body = false)
    (hl : body.getLast? ≠ some ']') :
    lazyUntilClose (body ++ ']' :: ']' :: rest) = some (body, rest) := by
  induction body with
  | nil => simp [lazyUntilClose, List.isPrefixOf]
  | cons c t ih =>
    have hc2 : indexOf [']', ']'] (c :: t) = none := by
      simpa [occursIn] using hc
    have hnp := not_close_inside c t (']' :: rest) hc2 hl
    have hc3 := ((indexOf_cons_none _ _ _).1 hc2).2
    simp only [hasLineBreak, List.any_cons, Bool.or_eq_false_iff] at hnl
    have ih2 := ih (by simpa [hasLineBreak] using hnl.2) (by simp [occursIn, hc3])
      (getLast?_tail_ne c t _ hl)
    rw [List.cons_append, lazyUntilClose_cons, hnp, hnl.1, ih2]
    rfl


theorem classicLinksAux_cons (fuel : Nat) (c : Char) (cs : List Char) :
    classicLinksAux (fuel + 1) (c :: cs) =
      if ['[', '['].isPrefixOf (c :: cs) then
        match lazyUntilClose (cs.drop 1) with
        | some (target, after) => classicCallback target ++ classicLinksAux fuel after
        | none => c :: classicLinksAux fuel cs
      else c :: classicLinksAux fuel cs := by
  rfl

theorem classicLinks_single (body : List Char)
    (hnl : hasLineBreak body = false) (hc : occursIn [']', ']'] body = false)
    (hl : body.getLast? ≠ some ']') :
    classicLinks ('[' :: '[' :: (body ++ [']', ']'])) = classicCallback body := by
  unfold classicLinks
  rw [List.length_cons, classicLinksAux_cons]
  have h1 : ['[', '['].isPrefixOf ('[' :: '[' :: (body ++ [']', ']'])) = true := by
    rw [isPrefixOf_pair]; simp
  rw [h1, if_pos rfl]
  have h2 : List.drop 1 ('[' :: (body ++ [']', ']'])) = body ++ ']' :: ']' :: [] := rfl
  rw [h2, lazyUntilClose_body body [] hnl hc hl]
  simp [classicLinksAux_nil]

/-! ### The extended rewrite leaves a text without `]]` + brace alone -/

theorem indexOf_none_tail (pat : List Char) (c : Char) (cs : List Char)
    (h : indexOf pat (c :: cs) = none) : indexOf pat cs = none :=
  ((indexOf_cons_none pat c cs).1 h).2

theorem indexOf_none_drop (pat : List Char) (n : Nat) (s : List Char)
    (h : indexOf pat s = none) : indexOf pat (s.drop n) = none := by
  induction n generalizing s with
  | zero => simpa using h
  | succ k ih =>
    cases s with
    | nil => simpa using h
    | cons c cs => simpa using ih cs (indexOf_none_tail pat c cs h)

theorem lazyUntilAttrs_cons (c : Char) (cs : List Char) :
    lazyUntilAttrs (c :: cs) =
      match closeWithAttrs (c :: cs) with
      | some (attrs, after) => some ([], attrs, after)
      | none =>
        if isLineTerminator c then none
        else (lazyUntilAttrs cs).map (fun r => (c :: r.1, r.2.1, r.2.2)) := by
  rfl

theorem lazyUntilAttrs_none (s : List Char)
    (h : indexOf [']', ']', openBrace] s = none) : lazyUntilAttrs s = none := by
  induction s with
  | nil => rfl
  | cons c cs ih =>
    have h1 := (indexOf_cons_none _ c cs).1 h
    rw [lazyUntilAttrs_cons]
    have h2 : closeWithAttrs (c :: cs) = none := by
      unfold closeWithAttrs
      rw [h1.1]; rfl
    rw [h2, ih h1.2]
    by_cases ht : isLineTerminator c = true
    · simp [ht]
    · simp [ht]

theorem extendedLinksAux_cons (fuel : Nat) (c : Char) (cs : List Char) :
    extendedLinksAux (fuel + 1) (c :: cs) =
      if ['[', '['].isPrefixOf (c :: cs) then
        match lazyUntilAttrs (cs.drop 1) with
        | some (target, attrs, after) =>
          extendedCallback target attrs ++ extendedLinksAux fuel after
        | none => c :: extendedLinksAux fuel cs
      else c :: extendedLinksAux fuel cs := by
  rfl

theorem extendedLinksAux_id (fuel : Nat) (s : List Char)
    (h : indexOf [']', ']', openBrace] s = none) : extendedLinksAux fuel s = s := by
  induction fuel generalizing s with
  | zero => rfl
  | succ n ih =>
    cases s with
    | nil => rfl
    | cons c cs =>
      have ht := indexOf_none_tail _ c cs h
      rw [extendedLinksAux_cons, lazyUntilAttrs_none _ (indexOf_none_drop _ 1 cs ht), ih cs ht]
      simp

theorem extendedLinks_id (s : List Char)
    (h : indexOf [']', ']', openBrace] s = none) : extendedLinks s = s :=
  extendedLinksAux_id _ s h

/-- A text `[[body]]` whose body has no `]]` and does not end in `]` has no `]]` followed
by an opening brace. -/
theorem no_attrs_in_single (body : List Char)
    (hc : occursIn [']', ']'] body = false) (hl : body.getLast? ≠ some ']') :
    indexOf [']', ']', openBrace] ('[' :: '[' :: (body ++ [']', ']'])) = none := by
  have key : indexOf [']', ']', openBrace] (body ++ [']', ']']) = none := by
    induction body with
    | nil => decide
    | cons c t ih =>
      have hc2 : indexOf [']', ']'] (c :: t) = none := by simpa [occursIn] using hc
      have hnp := not_close_inside c t [']'] hc2 hl
      have hc3 := indexOf_none_tail _ c t hc2
      rw [List.cons_append, indexOf_cons_none]
      refine ⟨?_, ih (by simp [occursIn, hc3]) (getLast?_tail_ne c t _ hl)⟩
      rw [Bool.eq_false_iff]
      intro hp
      have : [']', ']'].isPrefixOf (c :: (t ++ [']', ']'])) = true := by
        cases hh : t ++ [']', ']'] with
        | nil => simp [hh, List.isPrefixOf] at hp
        | cons d u =>
          rw [hh] at hp
          simp only [List.isPrefixOf, Bool.and_eq_true, beq_iff_eq] at hp ⊢
          exact ⟨hp.1, hp.2.1, by simp⟩
      rw [hnp] at this
      exact absurd this (by simp)
  rw [indexOf_cons_none]
  refine ⟨by simp [List.isPrefixOf], ?_⟩
  rw [indexOf_cons_none]
  exact ⟨by simp [List.isPrefixOf], key⟩


theorem rewriteLinks_single (body : List Char)
    (hnl : hasLineBreak body = false) (hc : occursIn [']', ']'] body = false)
    (hl : body.getLast? ≠ some ']') :
    rewriteLinks ('[' :: '[' :: (body ++ [']', ']'])) = classicCallback body := by
  unfold rewriteLinks
  rw [extendedLinks_id _ (no_attrs_in_single body hc hl), classicLinks_single body hnl hc hl]

theorem classicCallback_eq (body : List Char) :
    classicCallback body = plainAnchor (splitLinkSpec body).1 (splitLinkSpec body).2 := by
  unfold classicCallback plainAnchor
  rw [splitLink_eq_spec]

/-! ### The extended rewrite of one link with attributes -/

theorem extendedCallback_eq (text attrs : List Char) :
    extendedCallback text attrs
      = extendedAnchor attrs (splitLinkSpec text).1 (splitLinkSpec text).2 := by
  unfold extendedCallback extendedAnchor
  rw [splitLink_eq_spec]

theorem lazyUntilBrace_cons (c : Char) (cs : List Char) :
    lazyUntilBrace (c :: cs) =
      if c = closeBrace then some ([], cs)
      else if isLineTerminator c then none
      else (lazyUntilBrace cs).map (fun r => (c :: r.1, r.2)) := by
  rw [lazyUntilBrace]

theorem lazyUntilBrace_attrs (attrs rest : List Char)
    (hnl : hasLineBreak attrs = false) (hb : closeBrace ∉ attrs) :
    lazyUntilBrace (attrs ++ closeBrace :: rest) = some (attrs, rest) := by
  induction attrs with
  | nil => simp [lazyUntilBrace]
  | cons c t ih =>
    simp only [hasLineBreak, List.any_cons, Bool.or_eq_false_iff] at hnl
    have hc : c ≠ closeBrace := fun h => hb (by simp [h])
    have ht : closeBrace ∉ t := fun h => hb (by simp [h])
    rw [List.cons_append, lazyUntilBrace_cons, if_neg hc, hnl.1,
      ih (by simpa [hasLineBreak] using hnl.2) ht]
    rfl

theorem closeWithAttrs_inside (c : Char) (t rest : List Char)
    (hc : indexOf [']', ']'] (c :: t) = none) :
    closeWithAttrs (c :: (t ++ ']' :: ']' :: openBrace :: rest)) = none := by
  have hp : [']', ']', openBrace].isPrefixOf (c :: (t ++ ']' :: ']' :: openBrace :: rest))
      = false := by
    cases t with
    | nil =>
      simp only [List.nil_append, List.isPrefixOf, Bool.and_eq_false_iff]
      right; right; left
      decide
    | cons d u =>
      have h1 := ((indexOf_cons_none _ _ _).1 hc).1
      rw [Bool.eq_false_iff] at h1 ⊢
      intro h
      apply h1
      rw [isPrefixOf_pair]
      simp only [List.cons_append, List.isPrefixOf, Bool.and_eq_true, beq_iff_eq] at h
      exact ⟨h.1.symm, by simp [h.2.1.symm]⟩
  unfold closeWithAttrs
  rw [hp]
  rfl

theorem lazyUntilAttrs_body (body attrs rest : List Char)
    (hnl : hasLineBreak body = false) (hc : occursIn [']', ']'] body = false)
    (hnla : hasLineBreak attrs = false) (hb : closeBrace ∉ attrs) :
    lazyUntilAttrs (body ++ ']' :: ']' :: openBrace :: (attrs ++ closeBrace :: rest))
      = some (body, attrs, rest) := by
  induction body with
  | nil =>
    rw [List.nil_append, lazyUntilAttrs_cons]
    have : closeWithAttrs (']' :: ']' :: openBrace :: (attrs ++ closeBrace :: rest))
        = some (attrs, rest) := by
      unfold closeWithAttrs
      have hp : [']', ']', openBrace].isPrefixOf
          (']' :: ']' :: openBrace :: (attrs ++ closeBrace :: rest)) = true := by
        simp [List.isPrefixOf]
      rw [hp]
      exact lazyUntilBrace_attrs attrs rest hnla hb
    rw [this]
  | cons c t ih =>
    have hc2 : indexOf [']', ']'] (c :: t) = none := by simpa [occursIn] using hc
    have hc3 := indexOf_none_tail _ c t hc2
    simp only [hasLineBreak, List.any_cons, Bool.or_eq_false_iff] at hnl
    rw [List.cons_append, lazyUntilAttrs_cons, closeWithAttrs_inside c t _ hc2]
    simp only [hnl.1]
    rw [ih (by simpa [hasLineBreak] using hnl.2) (by simp [occursIn, hc3])]
    rfl

theorem extendedLinks_single (body attrs : List Char)
    (hnl : hasLineBreak body = false) (hc : occursIn [']', ']'] body = false)
    (hnla : hasLineBreak attrs = false) (hb : closeBrace ∉ attrs) :
    extendedLinks ('[' :: '[' :: (body ++ ']' :: ']' :: openBrace :: (attrs ++ [closeBrace])))
      = extendedCallback body attrs := by
  unfold extendedLinks
  rw [List.length_cons, extendedLinksAux_cons]
  have h1 : ['[', '['].isPrefixOf
      ('[' :: '[' :: (body ++ ']' :: ']' :: openBrace :: (attrs ++ [closeBrace]))) = true := by
    rw [isPrefixOf_pair]; simp
  rw [h1, if_pos rfl]
  have h2 : List.drop 1 ('[' :: (body ++ ']' :: ']' :: openBrace :: (attrs ++ [closeBrace])))
      = body ++ ']' :: ']' :: openBrace :: (attrs ++ closeBrace :: []) := rfl
  rw [h2, lazyUntilAttrs_body body attrs [] hnl hc hnla hb]
  simp [extendedLinksAux_nil]

/-! ### Occurrences in a concatenation -/

theorem isPrefixOf_single (a c : Char) (l : List Char) :
    [a].isPrefixOf (c :: l) = true ↔ c = a := by
  simp only [List.isPrefixOf, Bool.and_true, beq_iff_eq]
  exact eq_comm

theorem indexOf_single_append_none (a : Char) (X Y : List Char)
    (hX : indexOf [a] X = none) (hY : indexOf [a] Y = none) : indexOf [a] (X ++ Y) = none := by
  induction X with
  | nil => simpa using hY
  | cons c t ih =>
    have h := (indexOf_cons_none _ c t).1 hX
    rw [List.cons_append, indexOf_cons_none]
    refine ⟨?_, ih h.2⟩
    rw [Bool.eq_false_iff] at h ⊢
    intro hp
    exact h.1 ((isPrefixOf_single a c t).2 ((isPrefixOf_single a c _).1 hp))

theorem indexOf_single_first (a : Char) (X Y : List Char)
    (hX : indexOf [a] X = none) : indexOf [a] (X ++ a :: Y) = some X.length := by
  induction X with
  | nil =>
    rw [List.nil_append, indexOf_cons, (isPrefixOf_single a a Y).2 rfl]; rfl
  | cons c t ih =>
    have h := (indexOf_cons_none _ c t).1 hX
    have hp : [a].isPrefixOf (c :: (t ++ a :: Y)) = false := by
      rw [Bool.eq_false_iff] at h ⊢
      intro hp
      exact h.1 ((isPrefixOf_single a c t).2 ((isPrefixOf_single a c _).1 hp))
    rw [List.cons_append, indexOf_cons, hp, ih h.2]
    rfl

theorem indexOf_pair_append_none (a b : Char) (X Y : List Char)
    (hX : indexOf [a, b] X = none) (hY : indexOf [a, b] Y = none)
    (hs : X.getLast? = some a → Y.head? = some b → False) :
    indexOf [a, b] (X ++ Y) = none := by
  induction X with
  | nil => simpa using hY
  | cons c t ih =>
    have h := (indexOf_cons_none _ c t).1 hX
    rw [List.cons_append, indexOf_cons_none]
    constructor
    · rw [Bool.eq_false_iff] at h ⊢
      intro hp
      rw [isPrefixOf_pair] at hp
      cases t with
      | nil => exact hs (by simp [hp.1]) (by simpa using hp.2)
      | cons d u =>
        exact h.1 ((isPrefixOf_pair a b c (d :: u)).2 ⟨hp.1, by simpa using hp.2⟩)
    · refine ih h.2 ?_
      intro h1 h2
      cases t with
      | nil => simp at h1
      | cons d u => exact hs (by rw [List.getLast?_cons_cons]; exact h1) h2

theorem indexOf_pair_first (a b : Char) (hab : a ≠ b) (X Y : List Char)
    (hX : indexOf [a, b] X = none) : indexOf [a, b] (X ++ a :: b :: Y) = some X.length := by
  induction X with
  | nil =>
    rw [List.nil_append, indexOf_cons, (isPrefixOf_pair a b a (b :: Y)).2 ⟨rfl, rfl⟩]; rfl
  | cons c t ih =>
    have h := (indexOf_cons_none _ c t).1 hX
    have hp : [a, b].isPrefixOf (c :: (t ++ a :: b :: Y)) = false := by
      rw [Bool.eq_false_iff] at h ⊢
      intro hp
      rw [isPrefixOf_pair] at hp
      cases t with
      | nil =>
        have : a = b := by simpa using hp.2
        exact hab this
      | cons d u =>
        exact h.1 ((isPrefixOf_pair a b c (d :: u)).2 ⟨hp.1, by simpa using hp.2⟩)
    rw [List.cons_append, indexOf_cons, hp, ih h.2]
    rfl


theorem plainText_iff (s : List Char) :
    plainText s = true ↔
      indexOf ['|'] s = none ∧ indexOf ['-', '>'] s = none ∧ indexOf ['<', '-'] s = none
        ∧ indexOf [']', ']'] s = none ∧ hasLineBreak s = false := by
  simp [plainText, occursIn, and_assoc]

theorem splitLink_bar (A B : List Char) (hA : indexOf ['|'] A = none) :
    splitLink (A ++ '|' :: B) = (A, B) := by
  unfold splitLink
  rw [indexOf_single_first _ A B hA]
  simp [substr, substrFrom]

theorem splitLink_right (A B : List Char) (hA : indexOf ['|'] A = none)
    (hB : indexOf ['|'] B = none) (hA2 : indexOf ['-', '>'] A = none) :
    splitLink (A ++ '-' :: '>' :: B) = (A, B) := by
  have h1 : indexOf ['|'] (A ++ '-' :: '>' :: B) = none := by
    apply indexOf_single_append_none _ _ _ hA
    rw [indexOf_cons_none]
    refine ⟨by simp [List.isPrefixOf], ?_⟩
    rw [indexOf_cons_none]
    exact ⟨by simp [List.isPrefixOf], hB⟩
  unfold splitLink
  rw [h1, indexOf_pair_first _ _ (by decide) A B hA2]
  simp [substr, substrFrom]

theorem splitLink_left (A B : List Char) (hA : indexOf ['|'] A = none)
    (hB : indexOf ['|'] B = none) (hA2 : indexOf ['-', '>'] A = none)
    (hB2 : indexOf ['-', '>'] B = none) (hB3 : indexOf ['<', '-'] B = none)
    (hAh : A.head? ≠ some '>') :
    splitLink (B ++ '<' :: '-' :: A) = (A, B) := by
  have h1 : indexOf ['|'] (B ++ '<' :: '-' :: A) = none := by
    apply indexOf_single_append_none _ _ _ hB
    rw [indexOf_cons_none]
    refine ⟨by simp [List.isPrefixOf], ?_⟩
    rw [indexOf_cons_none]
    exact ⟨by simp [List.isPrefixOf], hA⟩
  have h2 : indexOf ['-', '>'] (B ++ '<' :: '-' :: A) = none := by
    apply indexOf_pair_append_none _ _ _ _ hB2
    · rw [indexOf_cons_none]
      refine ⟨by simp [List.isPrefixOf], ?_⟩
      rw [indexOf_cons_none]
      refine ⟨?_, hA2⟩
      rw [Bool.eq_false_iff]
      intro hp
      exact hAh ((isPrefixOf_pair _ _ _ _).1 hp).2
    · intro _ h
      simp at h
  unfold splitLink
  rw [h1, h2, indexOf_pair_first _ _ (by decide) B A hB3]
  simp [substr, substrFrom]

theorem okBody_insert (X Y : List Char) (a : Char) (ha : a ≠ ']')
    (hat : isLineTerminator a = false) (hX1 : hasLineBreak X = false)
    (hX2 : indexOf [']', ']'] X = none) (hY : OkBody Y) : OkBody (X ++ a :: Y) := by
  obtain ⟨hY1, hY2, hY3⟩ := hY
  have hY2' : indexOf [']', ']'] Y = none := by simpa [occursIn] using hY2
  refine ⟨?_, ?_, ?_⟩
  · simp only [hasLineBreak, List.any_append, List.any_cons, Bool.or_eq_false_iff] at hX1 hY1 ⊢
    exact ⟨hX1, hat, hY1⟩
  · have : indexOf [']', ']'] (X ++ a :: Y) = none := by
      apply indexOf_pair_append_none _ _ _ _ hX2
      · rw [indexOf_cons_none]
        refine ⟨?_, hY2'⟩
        rw [Bool.eq_false_iff]
        intro hp
        exact ha ((isPrefixOf_pair _ _ _ _).1 hp).1
      · intro _ h
        simp only [List.head?_cons, Option.some.injEq] at h
        exact ha h
    simp [occursIn, this]
  · rw [List.getLast?_append]
    cases Y with
    | nil =>
      simpa [Option.or] using ha
    | cons d u =>
      rw [List.getLast?_cons_cons]
      cases hh : (d :: u).getLast? with
      | none => simp at hh
      | some x =>
        rw [hh] at hY3
        simpa [Option.or] using hY3

theorem okBody_of_plain (Y : List Char) (hY : plainText Y = true) (hl : Y.getLast? ≠ some ']') :
    OkBody Y := by
  rw [plainText_iff] at hY
  exact ⟨hY.2.2.2.2, by simp [occursIn, hY.2.2.2.1], hl⟩

theorem rewriteLinks_body (body : List Char) (h : OkBody body) :
    rewriteLinks ("[[".toList ++ body ++ "]]".toList)
      = plainAnchor (splitLink body).1 (splitLink body).2 := by
  have e : "[[".toList ++ body ++ "]]".toList = '[' :: '[' :: (body ++ [']', ']']) := rfl
  rw [e, rewriteLinks_single body h.1 h.2.1 h.2.2]
  rfl

/-! ### The scan needs no more fuel than the length of the text -/

theorem lazyUntilClose_length (s g after : List Char)
    (h : lazyUntilClose s = some (g, after)) : after.length < s.length := by
  induction s generalizing g after with
  | nil => simp [lazyUntilClose] at h
  | cons c cs ih =>
    rw [lazyUntilClose_cons] at h
    by_cases hp : [']', ']'].isPrefixOf (c :: cs) = true
    · rw [if_pos hp] at h
      simp only [Option.some.injEq, Prod.mk.injEq] at h
      rw [← h.2]
      simp only [List.length_drop, List.length_cons]
      omega
    · rw [if_neg hp] at h
      by_cases ht : isLineTerminator c = true
      · rw [if_pos ht] at h; exact absurd h (by simp)
      · rw [if_neg ht] at h
        cases hr : lazyUntilClose cs with
        | none => rw [hr] at h; exact absurd h (by simp)
        | some r =>
          rw [hr] at h
          simp only [Option.map_some', Option.some.injEq, Prod.mk.injEq] at h
          have := ih r.1 r.2 hr
          rw [← h.2]
          simp only [List.length_cons]
          omega

theorem classicLinksAux_fuel (n : Nat) (s : List Char) (h : s.length ≤ n) :
    classicLinksAux n s = classicLinksAux s.length s := by
  induction n using Nat.strong_induction_on generalizing s with
  | _ n ih =>
    cases s with
    | nil => rw [classicLinksAux_nil, classicLinksAux_nil]
    | cons c cs =>
      cases n with
      | zero => simp at h
      | succ m =>
        have hm : cs.length ≤ m := by simpa using h
        rw [List.length_cons, classicLinksAux_cons, classicLinksAux_cons]
        have e1 : classicLinksAux m cs = classicLinksAux cs.length cs := ih m (by omega) cs hm
        rw [e1]
        by_cases hp : ['[', '['].isPrefixOf (c :: cs) = true
        · rw [if_pos hp, if_pos hp]
          cases hr : lazyUntilClose (List.drop 1 cs) with
          | none => rfl
          | some r =>
            have hl := lazyUntilClose_length _ r.1 r.2 hr
            have hd : (List.drop 1 cs).length ≤ cs.length := by simp
            have e2 : classicLinksAux m r.2 = classicLinksAux r.2.length r.2 :=
              ih m (by omega) r.2 (by omega)
            have e3 : classicLinksAux cs.length r.2 = classicLinksAux r.2.length r.2 := by
              by_cases hz : cs.length = m
              · rw [hz]; exact e2
              · exact ih cs.length (by omega) r.2 (by omega)
            simp only [e2, e3]
        · rw [if_neg hp, if_neg hp]


theorem lazyUntilBrace_length (s g after : List Char)
    (h : lazyUntilBrace s = some (g, after)) : after.length < s.length := by
  induction s generalizing g after with
  | nil => simp [lazyUntilBrace] at h
  | cons c cs ih =>
    rw [lazyUntilBrace] at h
    by_cases hp : c = closeBrace
    · rw [if_pos hp] at h
      simp only [Option.some.injEq, Prod.mk.injEq] at h
      rw [← h.2]
      simp
    · rw [if_neg hp] at h
      by_cases ht : isLineTerminator c = true
      · rw [if_pos ht] at h; exact absurd h (by simp)
      · rw [if_neg ht] at h
        cases hr : lazyUntilBrace cs with
        | none => rw [hr] at h; exact absurd h (by simp)
        | some r =>
          rw [hr] at h
          simp only [Option.map_some', Option.some.injEq, Prod.mk.injEq] at h
          have := ih r.1 r.2 hr
          rw [← h.2]
          simp only [List.length_cons]
          omega

theorem closeWithAttrs_length (s g after : List Char)
    (h : closeWithAttrs s = some (g, after)) : after.length < s.length := by
  unfold closeWithAttrs at h
  by_cases hp : [']', ']', openBrace].isPrefixOf s = true
  · rw [if_pos hp] at h
    have h1 := lazyUntilBrace_length _ g after h
    have h2 : (List.drop 3 s).length ≤ s.length := by simp
    omega
  · rw [if_neg hp] at h
    exact absurd h (by simp)

theorem lazyUntilAttrs_length (s g attrs after : List Char)
    (h : lazyUntilAttrs s = some (g, attrs, after)) : after.length < s.length := by
  induction s generalizing g attrs after with
  | nil => simp [lazyUntilAttrs] at h
  | cons c cs ih =>
    rw [lazyUntilAttrs_cons] at h
    cases hc : closeWithAttrs (c :: cs) with
    | some r =>
      rw [hc] at h
      simp only [Option.some.injEq, Prod.mk.injEq] at h
      have := closeWithAttrs_length _ r.1 r.2 hc
      rw [← h.2.2]
      exact this
    | none =>
      rw [hc] at h
      simp only [] at h
      by_cases ht : isLineTerminator c = true
      · rw [if_pos ht] at h; exact absurd h (by simp)
      · rw [if_neg ht] at h
        cases hr : lazyUntilAttrs cs with
        | none => rw [hr] at h; exact absurd h (by simp)
        | some r =>
          rw [hr] at h
          simp only [Option.map_some', Option.some.injEq, Prod.mk.injEq] at h
          have := ih r.1 r.2.1 r.2.2 hr
          rw [← h.2.2]
          simp only [List.length_cons]
          omega

theorem extendedLinksAux_fuel (n : Nat) (s : List Char) (h : s.length ≤ n) :
    extendedLinksAux n s = extendedLinksAux s.length s := by
  induction n using Nat.strong_induction_on generalizing s with
  | _ n ih =>
    cases s with
    | nil => rw [extendedLinksAux_nil, extendedLinksAux_nil]
    | cons c cs =>
      cases n with
      | zero => simp at h
      | succ m =>
        have hm : cs.length ≤ m := by simpa using h
        rw [List.length_cons, extendedLinksAux_cons, extendedLinksAux_cons]
        have e1 : extendedLinksAux m cs = extendedLinksAux cs.length cs := ih m (by omega) cs hm
        rw [e1]
        by_cases hp : ['[', '['].isPrefixOf (c :: cs) = true
        · rw [if_pos hp, if_pos hp]
          cases hr : lazyUntilAttrs (List.drop 1 cs) with
          | none => rfl
          | some r =>
            have hl := lazyUntilAttrs_length _ r.1 r.2.1 r.2.2 hr
            have hd : (List.drop 1 cs).length ≤ cs.length := by simp
            have e2 : extendedLinksAux m r.2.2 = extendedLinksAux r.2.2.length r.2.2 :=
              ih m (by omega) r.2.2 (by omega)
            have e3 : extendedLinksAux cs.length r.2.2
                = extendedLinksAux r.2.2.length r.2.2 := by
              by_cases hz : cs.length = m
              · rw [hz]; exact e2
              · exact ih cs.length (by omega) r.2.2 (by omega)
            simp only [e2, e3]
        · rw [if_neg hp, if_neg hp]

/-- More fuel than the length of the text changes nothing: the scans of both rewrites
come to the end of the text within the fuel they are given. -/
theorem rewriteLinks_fuel (n m : Nat) (s : List Char) (hn : s.length ≤ n)
    (hm : (extendedLinks s).length ≤ m) :
    classicLinksAux m (extendedLinksAux n s) = rewriteLinks s := by
  unfold rewriteLinks
  rw [extendedLinksAux_fuel n s hn]
  exact classicLinksAux_fuel m _ hm


/-! ### The passage array the constructor builds -/

theorem setSlot_length (l : List (Option Passage)) (i : Nat) (p : Passage) :
    (setSlot l i p).length = max l.length (i + 1) := by
  induction l generalizing i with
  | nil =>
    induction i with
    | zero => simp [setSlot]
    | succ k ih => simp [setSlot, ih]
  | cons x t ih =>
    cases i with
    | zero => simp [setSlot]
    | succ k => simp [setSlot, ih k]; omega

theorem setSlot_get_same (l : List (Option Passage)) (i : Nat) (p : Passage) :
    (setSlot l i p).get? i = some (some p) := by
  induction l generalizing i with
  | nil =>
    induction i with
    | zero => simp [setSlot]
    | succ k ih => simpa [setSlot] using ih
  | cons x t ih =>
    cases i with
    | zero => simp [setSlot]
    | succ k => simpa [setSlot] using ih k

/-- Reading a slot as `PassageArray.get` does. -/
theorem setSlot_get_other (l : List (Option Passage)) (i j : Nat) (p : Passage) (h : j ≠ i) :
    ((setSlot l i p).get? j).join = (l.get? j).join := by
  induction l generalizing i j with
  | nil =>
    induction i generalizing j with
    | zero =>
      cases j with
      | zero => exact absurd rfl h
      | succ m => simp [setSlot]
    | succ k ih =>
      cases j with
      | zero => simp [setSlot]
      | succ m =>
        have := ih m (by omega)
        simpa [setSlot] using this
  | cons x t ih =>
    cases i with
    | zero =>
      cases j with
      | zero => exact absurd rfl h
      | succ m => simp [setSlot]
    | succ k =>
      cases j with
      | zero => simp [setSlot]
      | succ m =>
        have := ih k m (by omega)
        simpa [setSlot] using this

theorem isArrayIndex_iff (n : Int) : isArrayIndex n = true ↔ 0 ≤ n ∧ n < 4294967295 := by
  simp [isArrayIndex]

theorem get_eq_join (a : PassageArray) (n : Int) (h : isArrayIndex n = true) :
    a.get n = match (a.slots.get? n.toNat).join with
      | some p => Lookup.found p
      | none => Lookup.undefined := by
  unfold PassageArray.get
  rw [if_pos h]
  cases hh : a.slots.get? n.toNat with
  | none => rfl
  | some o => cases o <;> rfl

theorem assign_get_same (a : PassageArray) (id : Int) (p : Passage) :
    (a.assign id p).get id = Lookup.found p := by
  unfold PassageArray.assign PassageArray.get
  by_cases h : isArrayIndex id = true
  · simp only [if_pos h, setSlot_get_same]
  · simp [if_neg h]

theorem assign_get_other (a : PassageArray) (id n : Int) (p : Passage) (h : n ≠ id) :
    (a.assign id p).get n = a.get n := by
  by_cases hn : isArrayIndex n = true
  · rw [get_eq_join _ _ hn, get_eq_join _ _ hn]
    unfold PassageArray.assign
    by_cases hi : isArrayIndex id = true
    · simp only [if_pos hi]
      have h1 := (isArrayIndex_iff n).1 hn
      have h2 := (isArrayIndex_iff id).1 hi
      rw [setSlot_get_other _ _ _ _ (by omega)]
    · simp only [if_neg hi]
  · unfold PassageArray.assign PassageArray.get
    by_cases hi : isArrayIndex id = true
    · simp only [if_pos hi, if_neg hn]
    · simp only [if_neg hi, if_neg hn]
      have e : List.find? (fun kv => decide (kv.1 = n))
            ((id, p) :: List.filter (fun kv => decide (kv.1 ≠ id)) a.others)
          = List.find? (fun kv => decide (kv.1 = n)) a.others := by
        rw [List.find?_cons]
        have : decide ((id, p).1 = n) = false := by simp [Ne.symm h]
        rw [this]
        simp only []
        rw [List.find?_filter]
        congr 1
        funext kv
        by_cases hk : kv.1 = n
        · simp [hk, h]
        · simp [hk]
      rw [e]

theorem assign_length_le (a : PassageArray) (id : Int) (p : Passage) :
    a.length ≤ (a.assign id p).length := by
  unfold PassageArray.assign PassageArray.length
  by_cases hi : isArrayIndex id = true
  · simp only [if_pos hi, setSlot_length]; omega
  · simp only [if_neg hi]; exact Nat.le_refl _

theorem assign_length_gt (a : PassageArray) (id : Int) (p : Passage)
    (hi : isArrayIndex id = true) : id < ((a.assign id p).length : Int) := by
  unfold PassageArray.assign PassageArray.length
  have h1 := (isArrayIndex_iff id).1 hi
  simp only [if_pos hi, setSlot_length]
  omega


theorem loadPassages_cons (lib : Lib) (el : PassageData) (rest : List PassageData)
    (p : PassageArray) :
    loadPassages lib (el :: rest) p =
      match el.tags with
      | none => .error (JSError.typeError "tags.split")
      | some tags =>
        match el.pid with
        | some id =>
          loadPassages lib rest (p.assign id (Passage.new lib el.pid el.name
            (some (if tags ≠ [] then split ' ' tags else [])) el.innerHTML))
        | none => loadPassages lib rest p := by
  cases h1 : el.tags with
  | none => simp [loadPassages, h1]
  | some tags => cases h2 : el.pid <;> simp [loadPassages, h1, h2]

/-- What the constructor's loop leaves in the passage array when every `pid` is an array
index of at least 1: under a loaded id a passage with that id, at an index inside the length; under
any other key what was there before. -/
theorem loadPassages_get (lib : Lib) (els : List PassageData) (p0 store : PassageArray)
    (hload : loadPassages lib els p0 = .ok store)
    (hids : ∀ el ∈ els, ∃ n : Int, el.pid = some n ∧ 1 ≤ n ∧ n < 4294967295) :
    (∀ n : Int, (∃ el ∈ els, el.pid = some n) →
        ∃ p, store.get n = Lookup.found p ∧ p.id = n ∧ n < (store.length : Int))
      ∧ (∀ n : Int, (∀ el ∈ els, el.pid ≠ some n) → store.get n = p0.get n)
      ∧ p0.length ≤ store.length := by
  induction els generalizing p0 with
  | nil =>
    have e : store = p0 := by
      simp only [loadPassages, Except.ok.injEq] at hload
      exact hload.symm
    subst e
    exact ⟨fun n ⟨el, hel, _⟩ => absurd hel (by simp), fun _ _ => rfl, Nat.le_refl _⟩
  | cons el rest ih =>
    obtain ⟨id, hid, hid1, hid2⟩ := hids el (by simp)
    have hidx : isArrayIndex id = true := (isArrayIndex_iff id).2 ⟨by omega, hid2⟩
    rw [loadPassages_cons] at hload
    cases ht : el.tags with
    | none => rw [ht] at hload; exact absurd hload (by simp)
    | some tags =>
      rw [ht, hid] at hload
      simp only [] at hload
      obtain ⟨i1, i2, i3⟩ := ih _ hload (fun e he => hids e (by simp [he]))
      have hlen := assign_length_le p0 id (Passage.new lib (some id) el.name
        (some (if tags ≠ [] then split ' ' tags else [])) el.innerHTML)
      refine ⟨?_, ?_, Nat.le_trans hlen i3⟩
      · intro n hn
        by_cases hr : ∃ e ∈ rest, e.pid = some n
        · exact i1 n hr
        · have hnr : ∀ e ∈ rest, e.pid ≠ some n := fun e he hp => hr ⟨e, he, hp⟩
          obtain ⟨e, he, hp⟩ := hn
          have hee : e = el := by
            rcases List.mem_cons.1 he with h | h
            · exact h
            · exact absurd hp (hnr e h)
          subst hee
          have hidn : id = n := by
            rw [hid] at hp
            exact Option.some.inj hp
          subst hidn
          refine ⟨_, (i2 id hnr).trans (assign_get_same _ _ _), ?_, ?_⟩
          · have : id ≠ 0 := by omega
            simp [Passage.new, this]
          · have := assign_length_gt p0 id (Passage.new lib (some id) e.name
              (some (if tags ≠ [] then split ' ' tags else [])) e.innerHTML) hidx
            have h3 : ((p0.assign id (Passage.new lib (some id) e.name
              (some (if tags ≠ [] then split ' ' tags else [])) e.innerHTML)).length : Int)
                ≤ (store.length : Int) := by exact_mod_cast i3
            omega
      · intro n hn
        have hne : n ≠ id := by
          intro h
          exact hn el (by simp) (by rw [hid, h])
        rw [i2 n (fun e he => hn e (by simp [he]))]
        exact assign_get_other _ _ _ _ hne

/-- Numeric lookup in a story whose passages were loaded with ids of at least 1 that are
array indices: a loaded
id gives the passage stored under it, whose id is that number; any other number gives
`undefined` when it is below the length of the array and `null` otherwise. -/
theorem passage_by_number (lib : Lib) (els : List PassageData) (s : Story)
    (hload : loadPassages lib els PassageArray.empty = .ok s.passages)
    (hids : ∀ el ∈ els, ∃ n : Int, el.pid = some n ∧ 1 ≤ n ∧ n < 4294967295) (n : Int) :
    ((∃ el ∈ els, el.pid = some n) →
        ∃ p, s.passage lib (JVal.num n) = Lookup.found p ∧ p.id = n)
      ∧ ((∀ el ∈ els, el.pid ≠ some n) →
        s.passage lib (JVal.num n)
          = if n < (s.passages.length : Int) then Lookup.undefined else Lookup.null) := by
  obtain ⟨h1, h2, _⟩ := loadPassages_get lib els _ _ hload hids
  constructor
  · intro hn
    obtain ⟨p, hp, hpid, hlt⟩ := h1 n hn
    refine ⟨p, ?_, hpid⟩
    unfold Story.passage
    simp only [if_pos hlt, hp]
  · intro hn
    unfold Story.passage
    simp only []
    rw [h2 n hn]
    have : PassageArray.empty.get n = Lookup.undefined := by
      unfold PassageArray.get PassageArray.empty
      by_cases h0 : isArrayIndex n = true <;> simp [h0]
    rw [this]


/-! ### Lookup by name -/

theorem find?_of_filter_nil (l : List Passage) (f : Passage → Bool)
    (h : l.filter f = []) : l.find? f = none := by
  induction l with
  | nil => rfl
  | cons a t ih =>
    by_cases hf : f a = true
    · simp [List.filter, hf] at h
    · simp only [List.filter, hf] at h
      simp [List.find?, hf, ih h]

theorem find?_of_filter_cons (l : List Passage) (f : Passage → Bool) (first : Passage)
    (rest : List Passage) (h : l.filter f = first :: rest) : l.find? f = some first := by
  induction l with
  | nil => simp at h
  | cons a t ih =>
    by_cases hf : f a = true
    · simp only [List.filter, hf, List.cons.injEq] at h
      rw [← h.1]
      simp [List.find?, hf]
    · simp only [List.filter, hf] at h
      simp [List.find?, hf, ih h]

/-! ### `show` -/

@[simp] theorem event_state (s : Story) (n : String) : (s.event n).state = s.state := rfl
@[simp] theorem event_history (s : Story) (n : String) : (s.event n).history = s.history := rfl
@[simp] theorem event_checkpointName (s : Story) (n : String) :
    (s.event n).checkpointName = s.checkpointName := rfl
@[simp] theorem event_atCheckpoint (s : Story) (n : String) :
    (s.event n).atCheckpoint = s.atCheckpoint := rfl
@[simp] theorem event_passages (s : Story) (n : String) : (s.event n).passages = s.passages := rfl
theorem SameCore.refl (a : Story) : SameCore a a :=
  ⟨rfl, rfl, rfl, rfl, rfl, rfl⟩

theorem SameCore.trans {a b c : Story} (h1 : SameCore a b) (h2 : SameCore b c) :
    SameCore a c := by
  obtain ⟨a2, a3, a4, a5, a6, a7⟩ := h1
  obtain ⟨b2, b3, b4, b5, b6, b7⟩ := h2
  exact ⟨a2.trans b2, a3.trans b3, a4.trans b4, a5.trans b5, a6.trans b6, a7.trans b7⟩

theorem sameCore_event (s : Story) (n : String) : SameCore (s.event n) s :=
  ⟨rfl, rfl, rfl, rfl, rfl, rfl⟩

/-- An error report leaves the engine fields and the session history alone. -/
theorem sameCore_onError (s : Story) (e : JSError) (src : String) :
    SameCore (s.onError e src) s := by
  unfold Story.onError SameCore
  cases hi : s.ignoreErrors <;> simp [Story.event, hi]

theorem onError_state (s : Story) (e : JSError) (src : String) :
    (s.onError e src).state = s.state := by
  unfold Story.onError
  cases hi : s.ignoreErrors <;> simp [Story.event, hi]

theorem onError_passageEl (s : Story) (e : JSError) (src : String) :
    (s.onError e src).host.passageEl = s.host.passageEl := by
  unfold Story.onError
  cases hi : s.ignoreErrors <;> simp [Story.event, hi]

theorem checkpoint_facts (s : Story) (name : Option Str) :
    (s.checkpoint name).atCheckpoint = true ∧ (s.checkpoint name).history = s.history
      ∧ (s.checkpoint name).state = s.state ∧ (s.checkpoint name).passages = s.passages
      ∧ (s.checkpoint name).host.below = s.host.below
      ∧ (s.checkpoint name).host.top = s.host.top := by
  unfold Story.checkpoint
  cases name <;> simp [Story.event]

/-- What the `checkpoint` calls of a template run leave: everything but the checkpoint
fields and the title, and `atCheckpoint` set when there was a call. -/
theorem checkpoints_facts (s : Story) (l : List (Option Str)) :
    (s.checkpoints l).history = s.history ∧ (s.checkpoints l).state = s.state
      ∧ (s.checkpoints l).passages = s.passages
      ∧ (s.checkpoints l).host.below = s.host.below
      ∧ (s.checkpoints l).host.top = s.host.top
      ∧ (s.checkpoints l).atCheckpoint = (s.atCheckpoint || !l.isEmpty) := by
  induction l generalizing s with
  | nil => exact ⟨rfl, rfl, rfl, rfl, rfl, by simp [Story.checkpoints]⟩
  | cons n rest ih =>
    obtain ⟨c1, c2, c3, c4, c5, c6⟩ := checkpoint_facts s n
    obtain ⟨i1, i2, i3, i4, i5, i6⟩ := ih (s.checkpoint n)
    simp only [Story.checkpoints]
    exact ⟨i1.trans c2, i2.trans c3, i3.trans c4, i4.trans c5, i5.trans c6,
      by rw [i6, c1]; simp⟩

/-- What rendering leaves in the story: the history, the passages and the session history
as they were, the state the template run leaves, `atCheckpoint` set when the template
called `checkpoint`, and the checkpoint name as it was when the template did not. -/
theorem render_facts (lib : Lib) (p : Passage) (s : Story) (src : Option Str) :
    (p.render lib s src).2.history = s.history
      ∧ (p.render lib s src).2.state = (lib.template (src.getD p.source) s.state).state
      ∧ (p.render lib s src).2.passages = s.passages
      ∧ (p.render lib s src).2.host.below = s.host.below
      ∧ (p.render lib s src).2.host.top = s.host.top
      ∧ (p.render lib s src).2.atCheckpoint
          = (s.atCheckpoint || !(lib.template (src.getD p.source) s.state).checkpoints.isEmpty)
      ∧ ((lib.template (src.getD p.source) s.state).checkpoints = [] →
          (p.render lib s src).2.checkpointName = s.checkpointName) := by
  simp only [Passage.render]
  generalize lib.template (src.getD p.source) s.state = run
  obtain ⟨c1, c2, c3, c4, c5, c6⟩ :=
    checkpoints_facts { s with state := run.state } run.checkpoints
  have c7 : run.checkpoints = [] →
      (Story.checkpoints { s with state := run.state } run.checkpoints).checkpointName
        = s.checkpointName := by
    intro hq
    rw [hq]
    rfl
  cases ht : run.result with
  | error e =>
    simp only []
    obtain ⟨o1, o2, o3, o4, o5, o6⟩ := sameCore_onError
      (Story.checkpoints { s with state := run.state } run.checkpoints) e
      "Passage.render() using template()"
    have o7 := onError_state
      (Story.checkpoints { s with state := run.state } run.checkpoints) e
      "Passage.render() using template()"
    split <;> exact ⟨o1.trans c1, o7.trans c2, o4.trans c3, o5.trans c4, o6.trans c5,
      o3.trans c6, fun hq => o2.trans (c7 hq)⟩
  | ok r =>
    simp only []
    split <;> exact ⟨c1, c2, c3, c4, c5, c6, c7⟩

/-- What the `try` block of `show` leaves in the story. -/
theorem display_facts (lib : Lib) (s : Story) (passage : Lookup) :
    (s.display lib passage).history = s.history
      ∧ (s.display lib passage).state =
          (match passage with
            | Lookup.found p => (lib.template p.source s.state).state
            | _ => s.state)
      ∧ (s.display lib passage).passages = s.passages
      ∧ (s.display lib passage).host.below = s.host.below
      ∧ (s.display lib passage).host.top = s.host.top
      ∧ (s.display lib passage).atCheckpoint
          = (s.atCheckpoint || !(passage.checkpoints lib s.state).isEmpty)
      ∧ (passage.checkpoints lib s.state = [] →
          (s.display lib passage).checkpointName = s.checkpointName) := by
  unfold Story.display
  cases passage with
  | null =>
    obtain ⟨o1, o2, o3, o4, o5, o6⟩ :=
      sameCore_onError s (JSError.typeError "passage.render") "Story.show()"
    exact ⟨o1, onError_state s _ _, o4, o5, o6, by simp [o3, Lookup.checkpoints], fun _ => o2⟩
  | undefined =>
    obtain ⟨o1, o2, o3, o4, o5, o6⟩ :=
      sameCore_onError s (JSError.typeError "passage.render") "Story.show()"
    exact ⟨o1, onError_state s _ _, o4, o5, o6, by simp [o3, Lookup.checkpoints], fun _ => o2⟩
  | found p =>
    obtain ⟨r1, r2, r3, r4, r5, r6, r7⟩ := render_facts lib p s none
    simp only []
    cases hp : (p.render lib s none).2.host.passageEl with
    | none =>
      obtain ⟨o1, o2, o3, o4, o5, o6⟩ := sameCore_onError (p.render lib s none).2
        (JSError.typeError "this.passageEl.innerHTML") "Story.show()"
      exact ⟨o1.trans r1, (onError_state _ _ _).trans r2, o4.trans r3, o5.trans r4,
        o6.trans r5, o3.trans r6, fun hq => o2.trans (r7 hq)⟩
    | some el => exact ⟨r1, r2, r3, r4, r5, r6, r7⟩

/-! ### Navigation -/

/-- What the end of `show` leaves in the story: `atCheckpoint` is set exactly when the
template code of the passage called `checkpoint`. -/
theorem present_facts (lib : Lib) (s : Story) (passage : Lookup) :
    (s.present lib passage).history = s.history
      ∧ (s.present lib passage).state =
          (match passage with
            | Lookup.found p => (lib.template p.source s.state).state
            | _ => s.state)
      ∧ (s.present lib passage).passages = s.passages
      ∧ (s.present lib passage).host.below = s.host.below
      ∧ (s.present lib passage).host.top = s.host.top
      ∧ (s.present lib passage).atCheckpoint = !(passage.checkpoints lib s.state).isEmpty
      ∧ (passage.checkpoints lib s.state = [] →
          (s.present lib passage).checkpointName = s.checkpointName) := by
  unfold Story.present
  obtain ⟨d1, d2, d3, d4, d5, d6, d7⟩ := display_facts lib
    { s with host := { s.host with passage := passage }, atCheckpoint := false } passage
  exact ⟨d1, d2, d3, d4, d5, by simpa using d6, d7⟩

theorem recordVisit_found (s : Story) (p : Passage) (h : List JVal) (hh : s.history = some h) :
    ∃ t, s.recordVisit (Lookup.found p) = .ok t
      ∧ t.history = some (h ++ [JVal.num p.id]) ∧ t.state = s.state
      ∧ t.checkpointName = s.checkpointName ∧ t.passages = s.passages
      ∧ t.host.below = (if s.atCheckpoint then s.host.below ++ [s.host.top] else s.host.below)
      ∧ t.host.top = some ⟨s.state, h ++ [JVal.num p.id], s.checkpointName⟩ := by
  unfold Story.recordVisit
  rw [hh]
  refine ⟨_, rfl, ?_⟩
  cases hc : s.atCheckpoint <;>
    simp [hc, Story.event, Story.frame, Host.pushState, Host.replaceState]

/-- What `show` does when the passage is found, history is recorded and the history is
an array. -/
theorem show_found (lib : Lib) (s : Story) (x : JVal) (p : Passage) (h : List JVal)
    (hx : s.passage lib x = Lookup.found p) (hh : s.history = some h) :
    ∃ t, s.show lib x false = .ok t
      ∧ t.history = some (h ++ [JVal.num p.id])
      ∧ t.state = (lib.template p.source s.state).state
      ∧ ((lib.template p.source s.state).checkpoints = [] →
          t.checkpointName = s.checkpointName)
      ∧ t.atCheckpoint = !(lib.template p.source s.state).checkpoints.isEmpty
      ∧ t.passages = s.passages
      ∧ t.host.below = (if s.atCheckpoint then s.host.below ++ [s.host.top] else s.host.below)
      ∧ t.host.top = some ⟨s.state, h ++ [JVal.num p.id], s.checkpointName⟩ := by
  obtain ⟨u, hu, u1, u2, u3, u4, u5, u6⟩ :=
    recordVisit_found ((s.event "story:hidden").event "story:showing") p h hh
  obtain ⟨a1, a2, a3, a4, a5, a6, a7⟩ := present_facts lib u (Lookup.found p)
  simp only [Lookup.checkpoints] at a2 a6 a7
  rw [u2] at a2 a6 a7
  simp only [event_state] at a2 a6 a7
  refine ⟨u.present lib (Lookup.found p), ?_, a1.trans u1, a2, fun hq => (a7 hq).trans u3, a6,
    a3.trans u4, a4.trans u5, a5.trans u6⟩
  unfold Story.show
  rw [hx]
  simp only [hu, if_true]

theorem passage_congr (lib : Lib) (s t : Story) (h : t.passages = s.passages) (x : JVal) :
    t.passage lib x = s.passage lib x := by
  unfold Story.passage
  rw [h]

/-- What `show` does without recording, for a lookup result other than `null`. -/
theorem show_silent (lib : Lib) (s : Story) (x : JVal) (hx : s.passage lib x ≠ Lookup.null) :
    s.show lib x true
      = .ok (((s.event "story:hidden").event "story:showing").present lib (s.passage lib x)) := by
  unfold Story.show
  cases hp : s.passage lib x with
  | null => exact absurd hp hx
  | undefined => rfl
  | found p => rfl

theorem show_null (lib : Lib) (s : Story) (x : JVal) (nh : Bool)
    (hx : s.passage lib x = Lookup.null) :
    s.show lib x nh = .error (JSError.noPassage x, s) := by
  unfold Story.show
  rw [hx]

/-- A hole with history recording: the `TypeError` of `passage.id` leaves `show` after the
first two events, with history and state untouched. -/
theorem show_undefined_recorded (lib : Lib) (s : Story) (x : JVal)
    (hx : s.passage lib x = Lookup.undefined) :
    s.show lib x false
      = .error (JSError.typeError "this.history.push(passage.id)",
          (s.event "story:hidden").event "story:showing") := by
  unfold Story.show
  rw [hx]
  simp only [Story.recordVisit]
  cases hh : ((s.event "story:hidden").event "story:showing").history <;> rfl

/-- Without history recording `show` raises only when the lookup gives `null`, and then
the story is unchanged. -/
theorem show_silent_error (lib : Lib) (s : Story) (x : JVal) (e : JSError × Story)
    (h : s.show lib x true = .error e) : s.passage lib x = Lookup.null ∧ e.2 = s := by
  by_cases hx : s.passage lib x = Lookup.null
  · rw [show_null lib s x true hx] at h
    simp only [Except.error.injEq] at h
    exact ⟨hx, by rw [← h]⟩
  · rw [show_silent lib s x hx] at h
    exact absurd h (by simp)

/-- After `restore` has decoded a record, the story holds the history of the record,
whatever `restore` returns, and the checkpoint name and the state of the record when it
returns false. -/
theorem restore_decoded_fields (lib : Lib) (s : Story) (hash : Str) (save : SaveRecord)
    (hd : lib.decode hash = some save) :
    (s.restore lib hash).1.history = save.history
      ∧ ((s.restore lib hash).2 = false →
          (s.restore lib hash).1.checkpointName = save.checkpointName
            ∧ (s.restore lib hash).1.state = save.state) := by
  unfold Story.restore
  rw [hd]
  simp only []
  cases hh : save.history with
  | none =>
    have hh2 : (s.assign save).history = none := hh
    rw [hh2]
    simp only []
    exact ⟨hh, fun _ => ⟨rfl, rfl⟩⟩
  | some h =>
    have hh2 : (s.assign save).history = some h := hh
    rw [hh2]
    simp only []
    cases hs : (s.assign save).show lib (h.getLast?.getD JVal.undefined) true with
    | error e =>
      obtain ⟨_, he⟩ := show_silent_error lib _ _ e hs
      simp only [event_state, event_history, event_checkpointName, he]
      exact ⟨hh2, fun _ => ⟨rfl, rfl⟩⟩
    | ok t =>
      by_cases hx : (s.assign save).passage lib (h.getLast?.getD JVal.undefined) = Lookup.null
      · rw [show_null lib _ _ true hx] at hs
        exact absurd hs (by simp)
      · rw [show_silent lib _ _ hx] at hs
        simp only [Except.ok.injEq] at hs
        obtain ⟨a1, _⟩ := present_facts lib
          (((s.assign save).event "story:hidden").event "story:showing")
          ((s.assign save).passage lib (h.getLast?.getD JVal.undefined))
        simp only [event_state, event_history, event_checkpointName, ← hs]
        exact ⟨a1.trans hh2, fun hf => absurd hf (by simp)⟩

/-- When `restore` fails: the token does not decode, or the record has no history, or the
last entry of its history (`undefined` for the empty history) is looked up as `null`. -/
theorem restore_false_iff (lib : Lib) (s : Story) (hash : Str) :
    (s.restore lib hash).2 = false ↔
      lib.decode hash = none
        ∨ ∃ save, lib.decode hash = some save
          ∧ (save.history = none
            ∨ ∃ h, save.history = some h
              ∧ s.passage lib (h.getLast?.getD JVal.undefined) = Lookup.null) := by
  unfold Story.restore
  cases hd : lib.decode hash with
  | none => simp
  | some save =>
    simp only []
    have hsave : (s.assign save).history = save.history := rfl
    have hp : ∀ x, (s.assign save).passage lib x = s.passage lib x :=
      passage_congr lib s (s.assign save) rfl
    cases hh : save.history with
    | none =>
      rw [hsave, hh]
      simp [hh]
    | some h =>
      rw [hsave, hh]
      simp only []
      by_cases hx : (s.assign save).passage lib (h.getLast?.getD JVal.undefined) = Lookup.null
      · rw [show_null lib _ _ true hx]
        rw [hp] at hx
        simp [hh, hx]
      · rw [show_silent lib _ _ hx]
        rw [hp] at hx
        simp [hh, hx]

/-! ### The paragraph strip -/

theorem render_text (lib : Lib) (p : Passage) (s : Story) (src : Option Str) :
    (p.render lib s src).1 =
      if !("</p>\n".toList.isSuffixOf (p.preMarkdown lib s src))
          && "</p>\n".toList.isSuffixOf (lib.snarkdown (p.preMarkdown lib s src)) then
        stripParagraph (lib.snarkdown (p.preMarkdown lib s src))
      else lib.snarkdown (p.preMarkdown lib s src) := by
  simp only [Passage.render, Passage.preMarkdown]
  cases ht : (lib.template (src.getD p.source) s.state).result with
  | error e => simp only []; split <;> rfl
  | ok r => simp only []; split <;> rfl

theorem stripClosing_append (X : List Char) : stripClosing (X ++ "</p>\n".toList) = X := by
  induction X with
  | nil => decide
  | cons c t ih =>
    have h1 : c :: (t ++ "</p>\n".toList) ≠ "</p>".toList := by
      intro h
      have := congrArg List.length h
      simp at this
    have h2 : c :: (t ++ "</p>\n".toList) ≠ "</p>\n".toList := by
      intro h
      have := congrArg List.length h
      simp at this
    rw [List.cons_append, stripClosing, if_neg h1, if_neg h2, ih]

theorem stripParagraph_wrapped (X : List Char) :
    stripParagraph ("<p>".toList ++ X ++ "</p>\n".toList) = X := by
  have e : "<p>".toList ++ X ++ "</p>\n".toList = '<' :: 'p' :: '>' :: (X ++ "</p>\n".toList) := rfl
  rw [e]
  simp only [stripParagraph]
  exact stripClosing_append X

theorem isSuffixOf_wrapped (X : List Char) :
    "</p>\n".toList.isSuffixOf ("<p>".toList ++ X ++ "</p>\n".toList) = true := by
  rw [List.isSuffixOf_iff_suffix]
  exact List.suffix_append _ _


/-! ### `Utils.visits` -/

theorem visitsLoop_all_found (lib : Lib) (s : Story) (h : List JVal) (hh : s.history = some h)
    (refs : List JVal) (hrefs : ∀ ref ∈ refs, ∃ p, s.passage lib ref = Lookup.found p)
    (count : List JVal) (counts : List Nat) :
    Utils.visitsLoop lib s refs count counts
      = .ok (counts ++ refs.map (visitCount lib s)) := by
  induction refs generalizing count counts with
  | nil => simp [Utils.visitsLoop]
  | cons ref rest ih =>
    obtain ⟨p, hp⟩ := hrefs ref (by simp)
    have hrest : ∀ r ∈ rest, ∃ p, s.passage lib r = Lookup.found p :=
      fun r hr => hrefs r (by simp [hr])
    simp only [Utils.visitsLoop, hp, hh]
    rw [ih hrest]
    simp [visitCount, hp, hh]

/-- With every reference resolving to a passage and the history an array, `visits` gives
the reference counts: as a number for one reference, as an array otherwise. -/
theorem visits_all_found (lib : Lib) (s : Story) (h : List JVal) (hh : s.history = some h)
    (refs : List JVal) (hrefs : ∀ ref ∈ refs, ∃ p, s.passage lib ref = Lookup.found p) :
    Utils.visits lib s refs =
      match refs with
      | [ref] => .ok (VisitsResult.number (visitCount lib s ref))
      | _ => .ok (VisitsResult.array (refs.map (visitCount lib s))) := by
  unfold Utils.visits
  rw [visitsLoop_all_found lib s h hh refs hrefs]
  cases refs with
  | nil => rfl
  | cons a t =>
    cases t with
    | nil => rfl
    | cons b u => rfl


/-! ### What every call leaves of the history and of `atCheckpoint` -/

theorem show_found_no_history (lib : Lib) (s : Story) (x : JVal) (p : Passage)
    (hx : s.passage lib x = Lookup.found p) (hh : s.history = none) :
    s.show lib x false
      = .error (JSError.typeError "this.history.push(passage.id)",
          (s.event "story:hidden").event "story:showing") := by
  unfold Story.show
  rw [hx]
  simp only [Story.recordVisit, event_history, hh]
  rfl

/-- The two ways `show` can end. When it returns, `atCheckpoint` is set exactly when the
template code of the passage called `checkpoint`, and the history is as before or longer
by the id of the passage found; when it raises, history and `atCheckpoint` are as before.
The passages stay in both cases. -/
theorem show_outcome (lib : Lib) (s : Story) (x : JVal) (nh : Bool) :
    (∀ t, s.show lib x nh = .ok t →
        t.atCheckpoint = !(s.shownCheckpoints lib x).isEmpty ∧ t.passages = s.passages
          ∧ (t.history = s.history
            ∨ ∃ h p, s.history = some h ∧ s.passage lib x = Lookup.found p
                ∧ t.history = some (h ++ [JVal.num p.id])))
      ∧ (∀ e, s.show lib x nh = .error e →
        e.2.atCheckpoint = s.atCheckpoint ∧ e.2.passages = s.passages
          ∧ e.2.history = s.history) := by
  by_cases hnull : s.passage lib x = Lookup.null
  · rw [show_null lib s x nh hnull]
    refine ⟨fun t ht => absurd ht (by simp), fun e he => ?_⟩
    simp only [Except.error.injEq] at he
    rw [← he]
    exact ⟨rfl, rfl, rfl⟩
  · cases nh with
    | true =>
      rw [show_silent lib s x hnull]
      refine ⟨fun t ht => ?_, fun e he => absurd he (by simp)⟩
      simp only [Except.ok.injEq] at ht
      obtain ⟨a1, _, a3, _, _, a6, _⟩ := present_facts lib
        ((s.event "story:hidden").event "story:showing") (s.passage lib x)
      rw [← ht]
      exact ⟨a6, a3, Or.inl a1⟩
    | false =>
      cases hp : s.passage lib x with
      | null => exact absurd hp hnull
      | undefined =>
        rw [show_undefined_recorded lib s x hp]
        refine ⟨fun t ht => absurd ht (by simp), fun e he => ?_⟩
        simp only [Except.error.injEq] at he
        rw [← he]
        exact ⟨rfl, rfl, rfl⟩
      | found p =>
        cases hh : s.history with
        | none =>
          rw [show_found_no_history lib s x p hp hh]
          refine ⟨fun t ht => absurd ht (by simp), fun e he => ?_⟩
          simp only [Except.error.injEq] at he
          rw [← he]
          exact ⟨rfl, rfl, hh⟩
        | some h =>
          obtain ⟨t, ht, t1, _, _, t4, t5, _, _⟩ := show_found lib s x p h hp hh
          have hc : s.shownCheckpoints lib x = (lib.template p.source s.state).checkpoints := by
            unfold Story.shownCheckpoints
            rw [hp]
            rfl
          rw [ht]
          refine ⟨fun u hu => ?_, fun e he => absurd he (by simp)⟩
          simp only [Except.ok.injEq] at hu
          rw [← hu, hc]
          exact ⟨t4, t5, Or.inr ⟨h, p, rfl, rfl, t1⟩⟩

/-- What `restore` leaves: the passages as they were; `atCheckpoint` set exactly when the
template code it ran called `checkpoint` when it returns true, and as before when it
returns false; the history of the record when the token decodes and the history as before
when it does not. -/
theorem restore_outcome (lib : Lib) (s : Story) (hash : Str) :
    (s.restore lib hash).1.passages = s.passages
      ∧ ((s.restore lib hash).2 = true →
          (s.restore lib hash).1.atCheckpoint = !(s.restoreCheckpoints lib hash).isEmpty)
      ∧ ((s.restore lib hash).2 = false →
          (s.restore lib hash).1.atCheckpoint = s.atCheckpoint)
      ∧ (s.restore lib hash).1.history =
          (match lib.decode hash with
            | none => s.history
            | some save => save.history) := by
  unfold Story.restore Story.restoreCheckpoints
  cases hd : lib.decode hash with
  | none => exact ⟨rfl, fun h => absurd h (by simp), fun _ => rfl, rfl⟩
  | some save =>
    simp only []
    cases hh : save.history with
    | none =>
      have hh2 : (s.assign save).history = none := hh
      rw [hh2]
      simp only []
      exact ⟨rfl, fun h => absurd h (by simp), fun _ => rfl, hh⟩
    | some h =>
      have hh2 : (s.assign save).history = some h := hh
      rw [hh2]
      simp only []
      obtain ⟨hok, herr⟩ := show_outcome lib (s.assign save)
        (h.getLast?.getD JVal.undefined) true
      cases hs : (s.assign save).show lib (h.getLast?.getD JVal.undefined) true with
      | error e =>
        obtain ⟨e1, e2, e3⟩ := herr e hs
        simp only [event_atCheckpoint, event_passages, event_history]
        exact ⟨e2, fun hf => absurd hf (by simp), fun _ => e1, e3.trans hh2⟩
      | ok t =>
        obtain ⟨t1, t2, t3⟩ := hok t hs
        simp only [event_atCheckpoint, event_passages, event_history]
        refine ⟨t2, fun _ => t1, fun hf => absurd hf (by simp), ?_⟩
        by_cases hx : (s.assign save).passage lib (h.getLast?.getD JVal.undefined) = Lookup.null
        · rw [show_null lib _ _ true hx] at hs
          exact absurd hs (by simp)
        · rw [show_silent lib _ _ hx] at hs
          simp only [Except.ok.injEq] at hs
          obtain ⟨a1, _⟩ := present_facts lib
            (((s.assign save).event "story:hidden").event "story:showing")
            ((s.assign save).passage lib (h.getLast?.getD JVal.undefined))
          rw [← hs]
          exact a1.trans hh2

/-- The fallback of `start`: the start passage is shown and `atCheckpoint` is set. -/
theorem start_unfold (lib : Lib) (s : Story) :
    ∃ s1 : Story, s1.passages = s.passages ∧ s1.history = s.history
      ∧ s1.atCheckpoint = s.atCheckpoint
      ∧ s.start lib =
        if s.host.locationHash = [] then
          (match s1.show lib s1.startPassage false with
            | .ok t => .ok { t with atCheckpoint := true }
            | .error e => .error e)
        else if (s1.restore lib (Story.dropHashSign s.host.locationHash)).2 = true then
          .ok (s1.restore lib (Story.dropHashSign s.host.locationHash)).1
        else
          (match (s1.restore lib (Story.dropHashSign s.host.locationHash)).1.show lib
              (s1.restore lib (Story.dropHashSign s.host.locationHash)).1.startPassage false with
            | .ok t => .ok { t with atCheckpoint := true }
            | .error e => .error e) := by
  refine ⟨{ s with host := { s.host with passageEl := some ([], none), errorShown := none,
                                          events := s.host.events ++ ["vanilja:story:started"] } },
    rfl, rfl, rfl, ?_⟩
  · unfold Story.start
    simp only []
    by_cases hh : s.host.locationHash = []
    · simp only [hh, if_true]
    · simp only [hh, if_false]
      generalize hr : Story.restore lib _ (Story.dropHashSign s.host.locationHash) = r
      obtain ⟨t, b⟩ := r
      cases b
      · simp only [Bool.false_eq_true, if_false]
      · simp


theorem restore_bool_congr (lib : Lib) (s t : Story) (h : t.passages = s.passages)
    (hash : Str) : (t.restore lib hash).2 = (s.restore lib hash).2 := by
  have e : (t.restore lib hash).2 = false ↔ (s.restore lib hash).2 = false := by
    rw [restore_false_iff, restore_false_iff]
    simp only [passage_congr lib s t h]
  cases h1 : (t.restore lib hash).2 <;> cases h2 : (s.restore lib hash).2
  · rfl
  · exact absurd (e.1 h1) (by simp [h2])
  · exact absurd (e.2 h2) (by simp [h1])
  · rfl

theorem restoreCheckpoints_congr (lib : Lib) (s t : Story) (h : t.passages = s.passages)
    (hash : Str) : t.restoreCheckpoints lib hash = s.restoreCheckpoints lib hash := by
  unfold Story.restoreCheckpoints
  simp only [passage_congr lib s t h]

/-- When `start` returns, `atCheckpoint` is false exactly when the story was restored from
the location hash and the template code run on the way did not call `checkpoint`; a start
at the start passage leaves it true. -/
theorem start_atCheckpoint (lib : Lib) (s t : Story) (ht : s.start lib = .ok t) :
    t.atCheckpoint = false ↔
      (s.host.locationHash ≠ []
        ∧ (s.restore lib (Story.dropHashSign s.host.locationHash)).2 = true
        ∧ s.restoreCheckpoints lib (Story.dropHashSign s.host.locationHash) = []) := by
  obtain ⟨s1, p1, _, _, hs⟩ := start_unfold lib s
  rw [hs] at ht
  rw [← restore_bool_congr lib s s1 p1, ← restoreCheckpoints_congr lib s s1 p1]
  by_cases hh : s.host.locationHash = []
  · rw [if_pos hh] at ht
    cases hsh : s1.show lib s1.startPassage false with
    | error e => rw [hsh] at ht; exact absurd ht (by simp)
    | ok u =>
      rw [hsh] at ht
      simp only [Except.ok.injEq] at ht
      rw [← ht]
      simp [hh]
  · rw [if_neg hh] at ht
    by_cases hr : (s1.restore lib (Story.dropHashSign s.host.locationHash)).2 = true
    · rw [if_pos hr] at ht
      simp only [Except.ok.injEq] at ht
      rw [← ht]
      have := (restore_outcome lib s1 (Story.dropHashSign s.host.locationHash)).2.1 hr
      simp [this, hh, hr]
    · rw [if_neg hr] at ht
      cases hsh : (s1.restore lib (Story.dropHashSign s.host.locationHash)).1.show lib
          (s1.restore lib (Story.dropHashSign s.host.locationHash)).1.startPassage false with
      | error e => rw [hsh] at ht; exact absurd ht (by simp)
      | ok u =>
        rw [hsh] at ht
        simp only [Except.ok.injEq] at ht
        rw [← ht]
        simp [hr]

/-- A call that turns `atCheckpoint` from false to true is `start`, a `checkpoint`, or a
call whose template code called `checkpoint`. -/
theorem after_atCheckpoint (lib : Lib) (s : Story) (c : Call) (hs : s.atCheckpoint = false)
    (ht : (s.after lib c).atCheckpoint = true) :
    c = Call.start ∨ (∃ name, c = Call.checkpoint name) ∨ s.callCheckpoints lib c ≠ [] := by
  cases c with
  | start => exact Or.inl rfl
  | checkpoint name => exact Or.inr (Or.inl ⟨name, rfl⟩)
  | «show» x nh =>
    refine Or.inr (Or.inr ?_)
    obtain ⟨hok, herr⟩ := show_outcome lib s x nh
    simp only [Story.after] at ht
    simp only [Story.callCheckpoints]
    cases hsh : s.show lib x nh with
    | ok t =>
      rw [hsh] at ht
      simp only [] at ht
      rw [(hok t hsh).1] at ht
      intro hq
      rw [hq] at ht
      exact absurd ht (by simp)
    | error e =>
      rw [hsh] at ht
      simp only [] at ht
      rw [(herr e hsh).1, hs] at ht
      exact absurd ht (by simp)
  | render x =>
    refine Or.inr (Or.inr ?_)
    simp only [Story.after, Story.render] at ht
    simp only [Story.callCheckpoints, Story.shownCheckpoints]
    cases hp : s.passage lib x with
    | found p =>
      rw [hp] at ht
      simp only [] at ht
      obtain ⟨_, _, _, _, _, r6, _⟩ := render_facts lib p s none
      rw [r6, hs] at ht
      intro hq
      simp only [Lookup.checkpoints] at hq
      simp only [Option.getD_none] at ht
      rw [hq] at ht
      exact absurd ht (by simp)
    | null =>
      rw [hp] at ht
      simp only [] at ht
      rw [hs] at ht
      exact absurd ht (by simp)
    | undefined =>
      rw [hp] at ht
      simp only [] at ht
      rw [hs] at ht
      exact absurd ht (by simp)
  | restore hash =>
    refine Or.inr (Or.inr ?_)
    simp only [Story.after] at ht
    simp only [Story.callCheckpoints]
    obtain ⟨_, r2, r3, _⟩ := restore_outcome lib s hash
    cases hb : (s.restore lib hash).2 with
    | true =>
      rw [r2 hb] at ht
      intro hq
      rw [hq] at ht
      exact absurd ht (by simp)
    | false => rw [r3 hb, hs] at ht; exact absurd ht (by simp)


/-! ### Ids in the history -/

theorem holdsId_of_slot (a : PassageArray) (p : Passage) (h : some p ∈ a.slots) :
    a.holdsId (JVal.num p.id) = true := by
  unfold PassageArray.holdsId
  rw [Bool.or_eq_true]
  left
  rw [List.any_eq_true]
  exact ⟨some p, h, by simp⟩

theorem holdsId_of_other (a : PassageArray) (kv : Int × Passage) (h : kv ∈ a.others) :
    a.holdsId (JVal.num kv.2.id) = true := by
  unfold PassageArray.holdsId
  rw [Bool.or_eq_true]
  right
  rw [List.any_eq_true]
  exact ⟨kv, h, by simp⟩

theorem holdsId_of_get (a : PassageArray) (n : Int) (p : Passage)
    (h : a.get n = Lookup.found p) : a.holdsId (JVal.num p.id) = true := by
  unfold PassageArray.get at h
  by_cases hn : isArrayIndex n = true
  · rw [if_pos hn] at h
    cases hg : a.slots.get? n.toNat with
    | none => rw [hg] at h; exact absurd h (by simp)
    | some o =>
      cases o with
      | none => rw [hg] at h; exact absurd h (by simp)
      | some q =>
        rw [hg] at h
        simp only [Lookup.found.injEq] at h
        rw [← h]
        exact holdsId_of_slot a q (List.get?_mem hg)
  · rw [if_neg hn] at h
    cases hf : a.others.find? (fun kv => kv.1 = n) with
    | none => rw [hf] at h; exact absurd h (by simp)
    | some kv =>
      rw [hf] at h
      simp only [Lookup.found.injEq] at h
      rw [← h]
      exact holdsId_of_other a kv (List.mem_of_find?_eq_some hf)

theorem holdsId_of_filter (a : PassageArray) (f : Passage → Bool) (p : Passage)
    (rest : List Passage) (h : a.filter f = p :: rest) :
    a.holdsId (JVal.num p.id) = true := by
  have hm : p ∈ a.filter f := by rw [h]; simp
  unfold PassageArray.filter at hm
  have hm2 := (List.mem_filter.1 hm).1
  rw [List.mem_filterMap] at hm2
  obtain ⟨o, ho, hop⟩ := hm2
  rw [hop] at ho
  exact holdsId_of_slot a p ho

/-- A passage that `passage` finds is a passage of the store. -/
theorem holdsId_of_found (lib : Lib) (s : Story) (x : JVal) (p : Passage)
    (h : s.passage lib x = Lookup.found p) : s.passages.holdsId (JVal.num p.id) = true := by
  unfold Story.passage at h
  cases x with
  | num n =>
    simp only [] at h
    by_cases hn : n < (s.passages.length : Int)
    · rw [if_pos hn] at h
      exact holdsId_of_get _ n p h
    · rw [if_neg hn] at h
      exact absurd h (by simp)
  | str name =>
    simp only [] at h
    cases h1 : s.passages.filter (fun q => q.name = name) with
    | cons a t =>
      rw [h1] at h
      simp only [Lookup.found.injEq] at h
      rw [← h]
      exact holdsId_of_filter _ _ a t h1
    | nil =>
      rw [h1] at h
      simp only [] at h
      cases h2 : s.passages.filter
          (fun q => lib.toLowerCase q.name = lib.toLowerCase name) with
      | cons a t =>
        rw [h2] at h
        simp only [Lookup.found.injEq] at h
        rw [← h]
        exact holdsId_of_filter _ _ a t h2
      | nil =>
        rw [h2] at h
        exact absurd h (by simp)
  | undefined => exact absurd h (by simp)
  | null => exact absurd h (by simp)
  | bool b => exact absurd h (by simp)
  | nan => exact absurd h (by simp)
  | object j => exact absurd h (by simp)

theorem historyInStore_congr (s t : Story) (hp : t.passages = s.passages)
    (hh : t.history = s.history) (hs : s.historyInStore = true) :
    t.historyInStore = true := by
  unfold Story.historyInStore at hs ⊢
  rw [hh, hp]
  exact hs

theorem historyInStore_push (s t : Story) (h : List JVal) (v : JVal)
    (hp : t.passages = s.passages) (hsh : s.history = some h)
    (hh : t.history = some (h ++ [v])) (hv : s.passages.holdsId v = true)
    (hs : s.historyInStore = true) : t.historyInStore = true := by
  unfold Story.historyInStore at hs ⊢
  rw [hsh] at hs
  rw [hh, hp]
  simp only [List.all_append, List.all_cons, List.all_nil, Bool.and_true, Bool.and_eq_true]
  exact ⟨hs, hv⟩

/-- The outcome of a `show`, returned or raised, keeps the history in the store. -/
theorem show_historyInStore (lib : Lib) (s : Story) (x : JVal) (nh : Bool)
    (hs : s.historyInStore = true) :
    (s.after lib (Call.show x nh)).historyInStore = true
      ∧ (s.after lib (Call.show x nh)).passages = s.passages := by
  obtain ⟨hok, herr⟩ := show_outcome lib s x nh
  simp only [Story.after]
  cases hsh : s.show lib x nh with
  | ok t =>
    simp only []
    obtain ⟨_, t2, t3⟩ := hok t hsh
    refine ⟨?_, t2⟩
    rcases t3 with t3 | ⟨h, p, h1, h2, h3⟩
    · exact historyInStore_congr s t t2 t3 hs
    · exact historyInStore_push s t h _ t2 h1 h3 (holdsId_of_found lib s x p h2) hs
  | error e =>
    simp only []
    obtain ⟨_, e2, e3⟩ := herr e hsh
    exact ⟨historyInStore_congr s e.2 e2 e3 hs, e2⟩

theorem restore_historyInStore (lib : Lib) (s : Story) (hash : Str)
    (hs : s.historyInStore = true) (hc : s.tokenInStore lib hash = true) :
    (s.restore lib hash).1.historyInStore = true := by
  obtain ⟨r1, _, _, r4⟩ := restore_outcome lib s hash
  unfold Story.tokenInStore at hc
  unfold Story.historyInStore at hs ⊢
  rw [r4, r1]
  cases hd : lib.decode hash with
  | none => simpa using hs
  | some save =>
    rw [hd] at hc
    simpa using hc


/-- The fallback of `start` keeps the history in the store. -/
theorem begin_historyInStore (lib : Lib) (s : Story) (hs : s.historyInStore = true) :
    (match (match s.show lib s.startPassage false with
        | .ok t => Except.ok { t with atCheckpoint := true }
        | .error e => Except.error e : Except (JSError × Story) Story) with
      | .ok t => t
      | .error e => e.2).historyInStore = true := by
  have h := (show_historyInStore lib s s.startPassage false hs).1
  simp only [Story.after] at h
  cases hsh : s.show lib s.startPassage false with
  | ok t =>
    rw [hsh] at h
    exact historyInStore_congr t _ rfl rfl h
  | error e =>
    rw [hsh] at h
    exact h

theorem tokenInStore_congr (lib : Lib) (s t : Story) (hp : t.passages = s.passages)
    (hash : Str) : t.tokenInStore lib hash = s.tokenInStore lib hash := by
  unfold Story.tokenInStore
  rw [hp]

/-- Every call whose restore token is harmless keeps the history in the store. -/
theorem after_historyInStore (lib : Lib) (s : Story) (c : Call)
    (hs : s.historyInStore = true) (hc : s.callInStore lib c = true) :
    (s.after lib c).historyInStore = true := by
  cases c with
  | «show» x nh => exact (show_historyInStore lib s x nh hs).1
  | checkpoint name =>
    obtain ⟨_, c2, _, c4, _, _⟩ := checkpoint_facts s name
    exact historyInStore_congr s _ c4 c2 hs
  | render x =>
    simp only [Story.after, Story.render]
    cases hp : s.passage lib x with
    | found p =>
      simp only []
      obtain ⟨r1, _, r3, _⟩ := render_facts lib p s none
      exact historyInStore_congr s _ r3 r1 hs
    | null => exact hs
    | undefined => exact hs
  | restore hash => exact restore_historyInStore lib s hash hs hc
  | start =>
    obtain ⟨s1, p1, h1, _, hst⟩ := start_unfold lib s
    have hs1 : s1.historyInStore = true := historyInStore_congr s s1 p1 h1 hs
    simp only [Story.after]
    rw [hst]
    by_cases hh : s.host.locationHash = []
    · rw [if_pos hh]
      exact begin_historyInStore lib s1 hs1
    · rw [if_neg hh]
      have hc1 : s1.tokenInStore lib (Story.dropHashSign s.host.locationHash) = true := by
        rw [tokenInStore_congr lib s s1 p1]
        simpa [Story.callInStore, hh] using hc
      have hr := restore_historyInStore lib s1 _ hs1 hc1
      by_cases hb : (s1.restore lib (Story.dropHashSign s.host.locationHash)).2 = true
      · rw [if_pos hb]
        exact hr
      · rw [if_neg hb]
        exact begin_historyInStore lib _ hr

theorem afterAll_historyInStore (lib : Lib) (calls : List Call) (s : Story)
    (hs : s.historyInStore = true) (hc : s.runInStore lib calls = true) :
    (s.afterAll lib calls).historyInStore = true := by
  induction calls generalizing s with
  | nil => exact hs
  | cons c rest ih =>
    simp only [Story.runInStore, Bool.and_eq_true] at hc
    exact ih (s.after lib c) (after_historyInStore lib s c hs hc.1) hc.2

/-! ## The claims -/

/-- C1, amended. With the session history as a list of frames and template code that
reaches the engine through the state object and `checkpoint` calls only: when `x` resolves
to a passage and the history is an array, `show(x)` with `noHistory = false` succeeds and
writes the frame whose history is the old history followed by the id of that passage; it
appends the frame (one frame more) when `atCheckpoint` was true and puts it in place of
the top frame (as many frames as before) otherwise. Hence, from a one-frame stack with
`atCheckpoint` false and an array as history, `show(1)`, `checkpoint()`, `show(2)`,
`show(3)` leave exactly two frames, whose histories end in the ids of the passages 1 and
3, when the template code of passage 2 makes no `checkpoint` call. -/
theorem show_pushes_or_replaces (lib : Lib) :
    (∀ (s : Story) (x : JVal) (p : Passage) (h : List JVal),
      s.passage lib x = Lookup.found p → s.history = some h →
      ∃ t f, s.show lib x false = .ok t
        ∧ f.history = h ++ [JVal.num p.id] ∧ f.history.getLast? = some (JVal.num p.id)
        ∧ (s.atCheckpoint = true →
            t.host.frames = s.host.frames ++ [some f]
              ∧ t.host.frames.length = s.host.frames.length + 1)
        ∧ (s.atCheckpoint = false →
            t.host.frames = s.host.below ++ [some f]
              ∧ t.host.frames.length = s.host.frames.length))
    ∧ (∀ (s : Story) (p1 p2 p3 : Passage) (h : List JVal) (name : Option Str),
      s.passage lib (JVal.num 1) = Lookup.found p1 →
      s.passage lib (JVal.num 2) = Lookup.found p2 →
      s.passage lib (JVal.num 3) = Lookup.found p3 →
      s.history = some h → s.atCheckpoint = false → s.host.below = [] →
      (∀ state, (lib.template p2.source state).checkpoints = []) →
      ∃ t1 t2 t3 f1 f3, s.show lib (JVal.num 1) false = .ok t1
        ∧ (t1.checkpoint name).show lib (JVal.num 2) false = .ok t2
        ∧ t2.show lib (JVal.num 3) false = .ok t3
        ∧ t3.host.frames = [some f1, some f3]
        ∧ f1.history = h ++ [JVal.num p1.id]
        ∧ f3.history = h ++ [JVal.num p1.id, JVal.num p2.id, JVal.num p3.id]
        ∧ f1.history.getLast? = some (JVal.num p1.id)
        ∧ f3.history.getLast? = some (JVal.num p3.id)) := by
  constructor
  · intro s x p h hx hh
    obtain ⟨t, ht, _, _, _, _, _, hb, htop⟩ := show_found lib s x p h hx hh
    refine ⟨t, ⟨s.state, h ++ [JVal.num p.id], s.checkpointName⟩, ht, rfl, by simp, ?_, ?_⟩
    · intro hc
      rw [hc] at hb
      simp [Host.frames, hb, htop]
    · intro hc
      rw [hc] at hb
      simp [Host.frames, hb, htop]
  · intro s p1 p2 p3 h name h1 h2 h3 hh hc hbelow hq
    obtain ⟨t1, e1, a1, a2, a3, a4, a5, a6, a7⟩ := show_found lib s _ p1 h h1 hh
    obtain ⟨c1, c2, c3, c4, c5, c6⟩ := checkpoint_facts t1 name
    have h2' : (t1.checkpoint name).passage lib (JVal.num 2) = Lookup.found p2 := by
      rw [passage_congr lib s _ (c4.trans a5)]; exact h2
    obtain ⟨t2, e2, b1, b2, b3, b4, b5, b6, b7⟩ :=
      show_found lib (t1.checkpoint name) _ p2 _ h2' (c2.trans a1)
    have b4' : t2.atCheckpoint = false := by
      rw [b4, hq]
      rfl
    have h3' : t2.passage lib (JVal.num 3) = Lookup.found p3 := by
      rw [passage_congr lib s _ (b5.trans (c4.trans a5))]; exact h3
    obtain ⟨t3, e3, d1, d2, d3, d4, d5, d6, d7⟩ := show_found lib t2 _ p3 _ h3' b1
    refine ⟨t1, t2, t3, ⟨s.state, h ++ [JVal.num p1.id], s.checkpointName⟩,
      ⟨t2.state, h ++ [JVal.num p1.id] ++ [JVal.num p2.id] ++ [JVal.num p3.id],
        t2.checkpointName⟩, e1, e2, e3, ?_, rfl, by simp, by simp, by simp⟩
    rw [hc] at a6
    rw [c1] at b6
    rw [b4'] at d6
    simp only [if_true, if_false, Bool.false_eq_true] at a6 b6 d6
    simp [Host.frames, d6, d7, b6, c5, c6, a6, a7, hbelow]

/-- Witness of C1 (amended) on `demoStory`: the four calls leave the frames of the
histories `[1]` and `[1, 2, 3]`. -/
theorem show_pushes_or_replaces_witness :
    ∃ t1 t2 t3 f1 f3, demoStory.show (Lib.plain freshRecord) (JVal.num 1) false = .ok t1
      ∧ (t1.checkpoint none).show (Lib.plain freshRecord) (JVal.num 2) false = .ok t2
      ∧ t2.show (Lib.plain freshRecord) (JVal.num 3) false = .ok t3
      ∧ t3.host.frames = [some f1, some f3]
      ∧ f1.history = [JVal.num 1]
      ∧ f3.history = [JVal.num 1, JVal.num 2, JVal.num 3]
      ∧ f1.history.getLast? = some (JVal.num 1)
      ∧ f3.history.getLast? = some (JVal.num 3) :=
  (show_pushes_or_replaces (Lib.plain freshRecord)).2 demoStory
    { id := 1, name := "Start".toList, tags := [], source := "Hello".toList }
    { id := 2, name := "Hall".toList, tags := [], source := "[[Start]]".toList }
    { id := 3, name := "Attic".toList, tags := ["dark".toList], source := "Dust".toList }
    [] none (by decide) (by decide) (by decide) rfl rfl rfl (fun _ => rfl)

/-- C1, counterexample. A `restore` of a token that parses to the empty object leaves the
history `undefined`; passage 1 is still found, and `show(1)` raises at the push on the
history and writes no frame. And on `checkpointStory`, where the template code of passage
2 calls `checkpoint`, the calls `show(1)`, `checkpoint()`, `show(2)`, `show(3)` leave three
frames: the third `show` appends its frame. -/
theorem show_without_history_or_after_template_checkpoint :
    (demoStory.restore (Lib.plain emptyRecord) "saved".toList).1.history = none
      ∧ (∃ p, (demoStory.restore (Lib.plain emptyRecord) "saved".toList).1.passage
            (Lib.plain emptyRecord) (JVal.num 1) = Lookup.found p)
      ∧ (∃ e, (demoStory.restore (Lib.plain emptyRecord) "saved".toList).1.show
            (Lib.plain emptyRecord) (JVal.num 1) false = .error e
          ∧ e.2.host.frames
            = (demoStory.restore (Lib.plain emptyRecord) "saved".toList).1.host.frames)
      ∧ checkpointStory.history = some [] ∧ checkpointStory.atCheckpoint = false
      ∧ checkpointStory.host.frames.length = 1
      ∧ (∃ t1 t2 t3,
          checkpointStory.show (Lib.checkpointing freshRecord) (JVal.num 1) false = .ok t1
          ∧ (t1.checkpoint none).show (Lib.checkpointing freshRecord) (JVal.num 2) false
              = .ok t2
          ∧ t2.show (Lib.checkpointing freshRecord) (JVal.num 3) false = .ok t3
          ∧ t3.host.frames.length = 3
          ∧ t3.host.frames.map (Option.map (fun f => f.history))
              = [some [JVal.num 1], some [JVal.num 1, JVal.num 2],
                  some [JVal.num 1, JVal.num 2, JVal.num 3]]) :=
  ⟨rfl, ⟨_, rfl⟩, ⟨_, rfl, rfl⟩, rfl, rfl, rfl, ⟨_, _, _, rfl, rfl, rfl, rfl, rfl⟩⟩

/-- C2. The passage array built from ids 1, 2 and 3 has a hole at index 0. There
`passage(0)` is `undefined`, not the `null` that `show` tests for, so `show(0, true)` raises
nothing: it returns after clearing `atCheckpoint`, setting `window.passage` to `undefined`
and reporting the `TypeError` of `passage.render()` through the error event. With
`noHistory = false` the call does raise, the `TypeError` of reading `passage.id`. History
and state are unmodified either way. -/
theorem show_hole_without_history_returns :
    demoStory.passage (Lib.plain freshRecord) (JVal.num 0) = Lookup.undefined
      ∧ (∃ t, demoStory.show (Lib.plain freshRecord) (JVal.num 0) true = .ok t
        ∧ t.host.passage = Lookup.undefined
        ∧ t.errorMessage = some ("Story.show()", JSError.typeError "passage.render")
        ∧ t.history = demoStory.history ∧ t.state = demoStory.state)
      ∧ (∃ t, demoStory.show (Lib.plain freshRecord) (JVal.num 0) false
            = .error (JSError.typeError "this.history.push(passage.id)", t)
        ∧ t.history = demoStory.history ∧ t.state = demoStory.state) :=
  ⟨by decide, ⟨_, rfl, rfl, rfl, rfl, rfl⟩, ⟨_, rfl, rfl, rfl⟩⟩

/-- C3, amended. Let the codec give back the saved record. For a story whose history is
not empty and ends in an entry that resolves to a passage whose template code leaves the
state as it is and makes no `checkpoint` call, `restore(saveHash())` returns true, and
`state`, `history` and `checkpointName` are afterwards what they were when `saveHash` was
called. -/
theorem restore_saveHash_roundtrip (lib : Lib) (s : Story) (h : List JVal) (x : JVal)
    (p : Passage) (hh : s.history = some h) (hl : h.getLast? = some x)
    (hx : s.passage lib x = Lookup.found p)
    (ht : (lib.template p.source s.state).state = s.state)
    (hq : (lib.template p.source s.state).checkpoints = [])
    (hcodec : lib.decode (lib.encode s.saveRecord) = some s.saveRecord) :
    (s.restore lib (s.saveHash lib)).2 = true
      ∧ (s.restore lib (s.saveHash lib)).1.state = s.state
      ∧ (s.restore lib (s.saveHash lib)).1.history = s.history
      ∧ (s.restore lib (s.saveHash lib)).1.checkpointName = s.checkpointName := by
  have e : s.assign s.saveRecord = s := rfl
  have hs := show_silent lib s x (by rw [hx]; simp)
  obtain ⟨a1, a2, _, _, _, _, a7⟩ := present_facts lib
    ((s.event "story:hidden").event "story:showing") (s.passage lib x)
  rw [hx] at a2 a7
  simp only [event_state, Lookup.checkpoints] at a2 a7
  rw [ht, ← hx] at a2
  rw [← hx] at a7
  unfold Story.restore Story.saveHash
  rw [hcodec]
  simp only [e, hh, hl, Option.getD_some, hs]
  exact ⟨trivial, a2, a1.trans hh, a7 hq⟩

/-- Witness of C3 (amended) on `visitedStory`, whose history ends in the passage 3. -/
theorem restore_saveHash_roundtrip_witness :
    (visitedStory.restore (Lib.plain visitedRecord)
        (visitedStory.saveHash (Lib.plain visitedRecord))).2 = true
      ∧ (visitedStory.restore (Lib.plain visitedRecord)
          (visitedStory.saveHash (Lib.plain visitedRecord))).1.state = visitedStory.state
      ∧ (visitedStory.restore (Lib.plain visitedRecord)
          (visitedStory.saveHash (Lib.plain visitedRecord))).1.history = visitedStory.history
      ∧ (visitedStory.restore (Lib.plain visitedRecord)
          (visitedStory.saveHash (Lib.plain visitedRecord))).1.checkpointName
          = visitedStory.checkpointName :=
  restore_saveHash_roundtrip (Lib.plain visitedRecord) visitedStory
    [JVal.num 1, JVal.num 3] (JVal.num 3)
    { id := 3, name := "Attic".toList, tags := ["dark".toList], source := "Dust".toList }
    rfl rfl (by decide) rfl rfl (by decide)

/-- C3, counterexample. A story that has not shown a passage yet has the empty history.
The codec gives its record back, and still `restore(saveHash())` returns false: `show` is
called with `undefined`, the last entry of no entries, and raises. The same happens for a
history that ends in an id without passage, here 999. Where the last passage of the
history has template code that writes to the state, `restore(saveHash())` returns true but
leaves another state than the one saved; and where that code calls `checkpoint("B")`, it
returns true and leaves the checkpoint name `B` in place of the one saved. -/
theorem restore_of_own_save_fails :
    demoStory.history = some []
      ∧ (Lib.plain freshRecord).decode ((Lib.plain freshRecord).encode demoStory.saveRecord)
          = some demoStory.saveRecord
      ∧ (demoStory.restore (Lib.plain freshRecord)
          (demoStory.saveHash (Lib.plain freshRecord))).2 = false
      ∧ strangerStory.history = some [JVal.num 1, JVal.num 999]
      ∧ (Lib.plain strangerRecord).decode
            ((Lib.plain strangerRecord).encode strangerStory.saveRecord)
          = some strangerStory.saveRecord
      ∧ (strangerStory.restore (Lib.plain strangerRecord)
          (strangerStory.saveHash (Lib.plain strangerRecord))).2 = false
      ∧ (Lib.marking markingRecord).decode
            ((Lib.marking markingRecord).encode markingStory.saveRecord)
          = some markingStory.saveRecord
      ∧ (markingStory.restore (Lib.marking markingRecord)
          (markingStory.saveHash (Lib.marking markingRecord))).2 = true
      ∧ (markingStory.restore (Lib.marking markingRecord)
          (markingStory.saveHash (Lib.marking markingRecord))).1.state
          ≠ markingStory.state
      ∧ (Lib.checkpointing atticRecord).decode
            ((Lib.checkpointing atticRecord).encode atticStory.saveRecord)
          = some atticStory.saveRecord
      ∧ (atticStory.restore (Lib.checkpointing atticRecord)
          (atticStory.saveHash (Lib.checkpointing atticRecord))).2 = true
      ∧ atticStory.checkpointName = JVal.str []
      ∧ (atticStory.restore (Lib.checkpointing atticRecord)
          (atticStory.saveHash (Lib.checkpointing atticRecord))).1.checkpointName
          = JVal.str "B".toList := by
  decide

/-- C4, amended. Take a token that does not decompress or parse, or that parses to a
record whose history is missing, is empty, or ends in an entry that `passage` looks up as
`null`. Then `restore` returns false; it raises nothing, every error of its `try` block
ending in that result. When the token does not decompress or parse, `state`, `history` and
`checkpointName` are the same after the call as before it. -/
theorem restore_failure_reported (lib : Lib) (s : Story) (hash : Str)
    (hfail : lib.decode hash = none
      ∨ ∃ save, lib.decode hash = some save
        ∧ (save.history = none
          ∨ ∃ h, save.history = some h
            ∧ s.passage lib (h.getLast?.getD JVal.undefined) = Lookup.null)) :
    (s.restore lib hash).2 = false
      ∧ (lib.decode hash = none →
          (s.restore lib hash).1.state = s.state
            ∧ (s.restore lib hash).1.history = s.history
            ∧ (s.restore lib hash).1.checkpointName = s.checkpointName) := by
  refine ⟨(restore_false_iff lib s hash).2 hfail, ?_⟩
  intro hd
  unfold Story.restore
  rw [hd]
  exact ⟨rfl, rfl, rfl⟩

/-- Witness of C4 (amended): a token the codec does not know. -/
theorem restore_failure_reported_witness :
    (Lib.plain freshRecord).decode "garbage".toList = none
      ∧ (visitedStory.restore (Lib.plain freshRecord) "garbage".toList).2 = false
      ∧ (visitedStory.restore (Lib.plain freshRecord) "garbage".toList).1.state
          = visitedStory.state
      ∧ (visitedStory.restore (Lib.plain freshRecord) "garbage".toList).1.history
          = visitedStory.history
      ∧ (visitedStory.restore (Lib.plain freshRecord) "garbage".toList).1.checkpointName
          = visitedStory.checkpointName :=
  ⟨by decide,
    (restore_failure_reported (Lib.plain freshRecord) visitedStory "garbage".toList
      (Or.inl (by decide))).1,
    (restore_failure_reported (Lib.plain freshRecord) visitedStory "garbage".toList
      (Or.inl (by decide))).2 (by decide)⟩

/-- C4, counterexample. The token decodes to a record whose history ends in the id 999,
which has no passage. `restore` returns false, and the story is left with the state, the
history and the checkpoint name of the record, not with its own. -/
theorem restore_failure_overwrites_fields :
    demoStory.passage (Lib.plain strangerRecord) (JVal.num 999) = Lookup.null
      ∧ (demoStory.restore (Lib.plain strangerRecord) "saved".toList).2 = false
      ∧ (demoStory.restore (Lib.plain strangerRecord) "saved".toList).1.state
          = strangerRecord.state
      ∧ (demoStory.restore (Lib.plain strangerRecord) "saved".toList).1.state
          ≠ demoStory.state
      ∧ (demoStory.restore (Lib.plain strangerRecord) "saved".toList).1.history
          ≠ demoStory.history
      ∧ (demoStory.restore (Lib.plain strangerRecord) "saved".toList).1.checkpointName
          ≠ demoStory.checkpointName := by
  decide

/-- C5, amended. The split that the plain and the extended link callback perform on the
captured text is the reference split, for every text: the plain callback returns the
minimal anchor of the reference display and target, and the extended callback the anchor
with the attributes of the braces, the reference target as `data-passage` and the
reference display as content. For a body without line break and without `]]` that does
not end in `]`, the plain rewrite of `[[body]]` is exactly the minimal anchor of the
reference display and target, and so is the result of both rewrites in sequence. For a
body without line break and without `]]` and an attribute text without line break and
without closing brace, the extended rewrite of `[[body]]` followed by the attribute text
in braces is exactly the extended anchor of the reference display and target. -/
theorem link_split_reference :
    (∀ text, splitLink text = splitLinkSpec text)
      ∧ (∀ text, classicCallback text
          = plainAnchor (splitLinkSpec text).1 (splitLinkSpec text).2)
      ∧ (∀ text attrs, extendedCallback text attrs
          = extendedAnchor attrs (splitLinkSpec text).1 (splitLinkSpec text).2)
      ∧ (∀ body, hasLineBreak body = false → occursIn "]]".toList body = false →
          body.getLast? ≠ some ']' →
          classicLinks ("[[".toList ++ body ++ "]]".toList)
              = plainAnchor (splitLinkSpec body).1 (splitLinkSpec body).2
            ∧ rewriteLinks ("[[".toList ++ body ++ "]]".toList)
              = plainAnchor (splitLinkSpec body).1 (splitLinkSpec body).2)
      ∧ (∀ body attrs, hasLineBreak body = false → occursIn "]]".toList body = false →
          hasLineBreak attrs = false → closeBrace ∉ attrs →
          extendedLinks ("[[".toList ++ body ++ "]]".toList ++ [openBrace] ++ attrs
              ++ [closeBrace])
            = extendedAnchor attrs (splitLinkSpec body).1 (splitLinkSpec body).2) := by
  refine ⟨splitLink_eq_spec, classicCallback_eq, extendedCallback_eq, ?_, ?_⟩
  · intro body hnl hc hl
    constructor
    · have e : "[[".toList ++ body ++ "]]".toList = '[' :: '[' :: (body ++ [']', ']']) := rfl
      rw [e, classicLinks_single body hnl hc hl, classicCallback_eq]
    · rw [rewriteLinks_body body ⟨hnl, hc, hl⟩, splitLink_eq_spec]
  · intro body attrs hnl hc hnla hb
    have e : "[[".toList ++ body ++ "]]".toList ++ [openBrace] ++ attrs ++ [closeBrace]
        = '[' :: '[' :: (body ++ ']' :: ']' :: openBrace :: (attrs ++ [closeBrace])) := by
      simp
    rw [e, extendedLinks_single body attrs hnl hc hnla hb, extendedCallback_eq]

set_option maxRecDepth 100000 in
/-- Witness of C5 (amended) on the body `Go on<-b`, alone and with the attribute text
`class:x`. -/
theorem link_split_reference_witness :
    hasLineBreak "Go on<-b".toList = false ∧ occursIn "]]".toList "Go on<-b".toList = false
      ∧ splitLinkSpec "Go on<-b".toList = ("b".toList, "Go on".toList)
      ∧ classicLinks "[[Go on<-b]]".toList
          = "<a href=\"javascript:void(0)\" data-passage=\"Go on\">b</a>".toList
      ∧ extendedLinks "[[Go on<-b]]\x7bclass:x\x7d".toList
          = "<a class=\"x\" data-passage=\"Go on\" href=\"javascript:void(0)\">b</a>".toList :=
  ⟨by decide, by decide, by decide,
    (link_split_reference.2.2.2.1 "Go on<-b".toList (by decide) (by decide) (by decide)).1,
    link_split_reference.2.2.2.2 "Go on<-b".toList "class:x".toList (by decide) (by decide)
      (by decide) (by decide)⟩

set_option maxRecDepth 100000 in
/-- C5, counterexample. The body `a]` has no `]]` and no line break, and its reference
display and target are both `a]`. The plain rewrite of `[[a]]]` closes the link at the
first `]]`: it gives the anchor of `a` followed by `]`. -/
theorem plain_rewrite_trailing_bracket :
    hasLineBreak "a]".toList = false ∧ occursIn "]]".toList "a]".toList = false
      ∧ splitLinkSpec "a]".toList = ("a]".toList, "a]".toList)
      ∧ classicLinks ("[[".toList ++ "a]".toList ++ "]]".toList)
          = plainAnchor "a".toList "a".toList ++ "]".toList
      ∧ classicLinks ("[[".toList ++ "a]".toList ++ "]]".toList)
          ≠ plainAnchor "a]".toList "a]".toList := by
  decide

/-- C6, amended. Let `A` and `B` hold none of `|`, `->`, `<-`, `]]` and no line break,
let `A` not start with `>` and neither of them end in `]`. Then the link rewrites turn
`[[A->B]]`, `[[B<-A]]` and `[[A|B]]` into the same anchor, with display text `A` and
`data-passage` `B`. -/
theorem three_spellings_same_anchor (A B : List Char)
    (hA : plainText A = true) (hB : plainText B = true)
    (hAs : A.head? ≠ some '>') (hAe : A.getLast? ≠ some ']') (hBe : B.getLast? ≠ some ']') :
    rewriteLinks ("[[".toList ++ (A ++ "->".toList ++ B) ++ "]]".toList) = plainAnchor A B
      ∧ rewriteLinks ("[[".toList ++ (B ++ "<-".toList ++ A) ++ "]]".toList) = plainAnchor A B
      ∧ rewriteLinks ("[[".toList ++ (A ++ "|".toList ++ B) ++ "]]".toList) = plainAnchor A B := by
  have pA := (plainText_iff A).1 hA
  have pB := (plainText_iff B).1 hB
  have oA := okBody_of_plain A hA hAe
  have oB := okBody_of_plain B hB hBe
  have e1 : A ++ "->".toList ++ B = A ++ '-' :: '>' :: B := by simp
  have e2 : B ++ "<-".toList ++ A = B ++ '<' :: '-' :: A := by simp
  have e3 : A ++ "|".toList ++ B = A ++ '|' :: B := by simp
  refine ⟨?_, ?_, ?_⟩
  · have ok : OkBody (A ++ '-' :: '>' :: B) :=
      okBody_insert A _ '-' (by decide) (by decide) pA.2.2.2.2 pA.2.2.2.1
        (okBody_insert [] B '>' (by decide) (by decide) rfl rfl oB)
    rw [e1, rewriteLinks_body _ ok, splitLink_right A B pA.1 pB.1 pA.2.1]
  · have ok : OkBody (B ++ '<' :: '-' :: A) :=
      okBody_insert B _ '<' (by decide) (by decide) pB.2.2.2.2 pB.2.2.2.1
        (okBody_insert [] A '-' (by decide) (by decide) rfl rfl oA)
    rw [e2, rewriteLinks_body _ ok,
      splitLink_left A B pA.1 pB.1 pA.2.1 pB.2.1 pB.2.2.1 hAs]
  · have ok : OkBody (A ++ '|' :: B) :=
      okBody_insert A B '|' (by decide) (by decide) pA.2.2.2.2 pA.2.2.2.1 oB
    rw [e3, rewriteLinks_body _ ok, splitLink_bar A B pA.1]

set_option maxRecDepth 100000 in
/-- Witness of C6 (amended) with display `Open the door` and target `Hall`. -/
theorem three_spellings_same_anchor_witness :
    rewriteLinks "[[Open the door->Hall]]".toList
        = "<a href=\"javascript:void(0)\" data-passage=\"Hall\">Open the door</a>".toList
      ∧ rewriteLinks "[[Hall<-Open the door]]".toList
        = "<a href=\"javascript:void(0)\" data-passage=\"Hall\">Open the door</a>".toList
      ∧ rewriteLinks "[[Open the door|Hall]]".toList
        = "<a href=\"javascript:void(0)\" data-passage=\"Hall\">Open the door</a>".toList :=
  three_spellings_same_anchor "Open the door".toList "Hall".toList
    (by decide) (by decide) (by decide) (by decide) (by decide)

set_option maxRecDepth 100000 in
/-- C6, counterexample. `A` is `>x` and `B` is `y`; neither holds a separator, `]]` or a
line break. `[[B<-A]]` is `[[y<->x]]`, in which the right arrow is found first: the anchor
shows `y<` and points to `x`, and not `>x` pointing to `y`. Further, with `A` = `a` and
`B` = `b]` the text `[[a->b]]]` gives the anchor of `a` and `b` followed by `]`, and with
`A` = `a]` and `B` = `b` the text `[[b<-a]]]` gives the same. -/
theorem left_arrow_before_gt :
    plainText ">x".toList = true ∧ plainText "y".toList = true
      ∧ rewriteLinks ("[[".toList ++ ("y".toList ++ "<-".toList ++ ">x".toList) ++ "]]".toList)
          = plainAnchor "y<".toList "x".toList
      ∧ rewriteLinks ("[[".toList ++ ("y".toList ++ "<-".toList ++ ">x".toList) ++ "]]".toList)
          ≠ plainAnchor ">x".toList "y".toList
      ∧ plainText "a".toList = true ∧ plainText "b]".toList = true
      ∧ rewriteLinks ("[[".toList ++ ("a".toList ++ "->".toList ++ "b]".toList) ++ "]]".toList)
          = plainAnchor "a".toList "b".toList ++ "]".toList
      ∧ rewriteLinks ("[[".toList ++ ("a".toList ++ "->".toList ++ "b]".toList) ++ "]]".toList)
          ≠ plainAnchor "a".toList "b]".toList
      ∧ plainText "a]".toList = true ∧ plainText "b".toList = true
      ∧ rewriteLinks ("[[".toList ++ ("b".toList ++ "<-".toList ++ "a]".toList) ++ "]]".toList)
          = plainAnchor "a".toList "b".toList ++ "]".toList
      ∧ rewriteLinks ("[[".toList ++ ("b".toList ++ "<-".toList ++ "a]".toList) ++ "]]".toList)
          ≠ plainAnchor "a]".toList "b".toList := by
  decide

set_option maxRecDepth 100000 in
/-- C7. The extended rewrite reads the attribute text as `key:value` pairs. For
`[[A|B]]` followed by `#x` in braces the one key is `#x` and its value is `undefined`: the
anchor shows `A` and has `data-passage="B"`, but it carries `#x="undefined"` and no `id`
attribute. -/
theorem extended_link_hash_shorthand :
    rewriteLinks "[[A|B]]\x7b#x\x7d".toList
        = "<a #x=\"undefined\" data-passage=\"B\" href=\"javascript:void(0)\">A</a>".toList
      ∧ occursIn "id=".toList (rewriteLinks "[[A|B]]\x7b#x\x7d".toList) = false := by
  decide

set_option maxRecDepth 100000 in
/-- C8. In `[[X]] T [[Y]]` followed by `k:v` in braces, the extended pattern starts at the
first `[[` and its lazy group runs over `]] T [[` up to the `]]` before the brace. The
extended rewrite makes one anchor whose target is `X]] T [[Y`, the plain rewrite then works
on the `[[` left inside that anchor, and the result does not begin with the minimal anchor
for `X`. -/
theorem plain_link_before_extended_link :
    extendedLinks "[[X]] T [[Y]]\x7bk:v\x7d".toList
        = "<a k=\"v\" data-passage=\"X]] T [[Y\" href=\"javascript:void(0)\">X]] T [[Y</a>".toList
      ∧ rewriteLinks "[[X]] T [[Y]]\x7bk:v\x7d".toList
        = ("<a k=\"v\" data-passage=\"X]] T <a href=\"javascript:void(0)\" "
            ++ "data-passage=\"Y\" href=\"javascript:void(0)\">X\">"
            ++ "Y\" href=\"javascript:void(0)\">X</a> T [[Y</a>").toList
      ∧ (plainAnchor "X".toList "X".toList).isPrefixOf
          (rewriteLinks "[[X]] T [[Y]]\x7bk:v\x7d".toList) = false := by
  decide

/-- C9. The constructor turns `demoData`, with the ids 1, 2 and 3, into `demoPassages`.
`passage(2)` is the passage loaded with id 2 and `passage(4)`, past the end, is `null`;
but `passage(0)`, an index in range that holds nothing, and `passage(-1)` are `undefined`
and not `null`. -/
theorem passage_of_hole_is_undefined :
    loadPassages (Lib.plain freshRecord) demoData PassageArray.empty = .ok demoPassages
      ∧ demoStory.passage (Lib.plain freshRecord) (JVal.num 2)
          = Lookup.found
              { id := 2, name := "Hall".toList, tags := [], source := "[[Start]]".toList }
      ∧ demoStory.passage (Lib.plain freshRecord) (JVal.num 4) = Lookup.null
      ∧ demoStory.passage (Lib.plain freshRecord) (JVal.num 0) = Lookup.undefined
      ∧ demoStory.passage (Lib.plain freshRecord) (JVal.num (-1)) = Lookup.undefined :=
  ⟨rfl, by decide, by decide, by decide, by decide⟩

/-- C10. For every store and every name, `passage(name)` is the first passage in store
order whose name is exactly `name`; failing that the first whose name equals `name` after
`toLowerCase` on both; failing that `null`. The lookup is a function of the store alone and
returns nothing but the passage, so it cannot change the store. -/
theorem passage_by_name (lib : Lib) (s : Story) (name : Str) :
    s.passage lib (JVal.str name) = passageByNameSpec lib s name := by
  unfold Story.passage passageByNameSpec PassageArray.filter storeOrder
  simp only []
  cases h1 : List.filter (fun p => decide (p.name = name))
      (List.filterMap (fun x => x) s.passages.slots) with
  | cons a t => rw [find?_of_filter_cons _ _ a t h1]
  | nil =>
    rw [find?_of_filter_nil _ _ h1]
    cases h2 : List.filter (fun p => decide (lib.toLowerCase p.name = lib.toLowerCase name))
        (List.filterMap (fun x => x) s.passages.slots) with
    | cons a t => rw [find?_of_filter_cons _ _ a t h2]
    | nil => rw [find?_of_filter_nil _ _ h2]

/-- C11, amended. Take a freshly constructed story over any passage array and any run of
`start`, `show`, `checkpoint`, `render` and `restore` calls with any arguments, in which
every token handed to `restore` (by the caller, or by `start` from the location hash)
does not decode or decodes to a record whose history is missing or holds only ids of
stored passages. In the state the run leaves, every entry of the history is the id of a
passage present in the store. -/
theorem history_of_stored_ids (lib : Lib) (name : Str) (startPassage : JVal)
    (passages : PassageArray) (host : Host) (calls : List Call)
    (hc : (Story.fresh name startPassage passages host).runInStore lib calls = true) :
    ((Story.fresh name startPassage passages host).afterAll lib calls).historyInStore = true :=
  afterAll_historyInStore lib calls _ rfl hc

/-- Witness of C11 (amended): the run `demoRun` on `newStory`, restored at the end from a
record with the history `[1, 3]`. -/
theorem history_of_stored_ids_witness :
    newStory.runInStore (Lib.plain visitedRecord) demoRun = true
      ∧ (newStory.afterAll (Lib.plain visitedRecord) demoRun).historyInStore = true :=
  ⟨by decide,
    history_of_stored_ids (Lib.plain visitedRecord) "Demo".toList (JVal.num 1) demoPassages
      Host.initial demoRun (by decide)⟩

/-- C11, counterexample. The passages of `newStory` are loaded with the ids 1, 2 and 3.
One `restore` call with a token that decodes to the history `[1, 999]` returns false and
leaves that history, in which 999 is the id of no stored passage. A token that decodes to
the history `[999, 1]` is even restored with success. -/
theorem restore_brings_foreign_ids :
    loadPassages (Lib.plain strangerRecord) demoData PassageArray.empty = .ok demoPassages
      ∧ (newStory.afterAll (Lib.plain strangerRecord) [Call.restore "saved".toList]).history
          = some [JVal.num 1, JVal.num 999]
      ∧ demoPassages.holdsId (JVal.num 999) = false
      ∧ (newStory.afterAll (Lib.plain strangerRecord)
          [Call.restore "saved".toList]).historyInStore = false
      ∧ (newStory.restore (Lib.plain detourRecord) "saved".toList).2 = true
      ∧ (newStory.afterAll (Lib.plain detourRecord)
          [Call.restore "saved".toList]).historyInStore = false :=
  ⟨rfl, by decide, by decide, by decide, by decide, by decide⟩

/-- C12, amended. In every state of the engine, with template code that reaches the
engine through the state object and `checkpoint` calls only: after a `show` that returns
and after a `restore` that returns true, `atCheckpoint` is true when the template code of
the passage shown called `checkpoint` and false when it did not; after a `start` that
returns, `atCheckpoint` is false when the story was restored from the location hash
without such a call and true otherwise, so always after a start at the start passage; and
a call that turns `atCheckpoint` from false to true is a `checkpoint`, a `start`, or a
`show`, `render` or `restore` whose template code called `checkpoint`. -/
theorem atCheckpoint_after_calls (lib : Lib) :
    (∀ (s t : Story) (x : JVal) (nh : Bool), s.show lib x nh = .ok t →
        t.atCheckpoint = !(s.shownCheckpoints lib x).isEmpty)
      ∧ (∀ (s : Story) (hash : Str), (s.restore lib hash).2 = true →
          (s.restore lib hash).1.atCheckpoint = !(s.restoreCheckpoints lib hash).isEmpty)
      ∧ (∀ (s t : Story), s.start lib = .ok t →
          (t.atCheckpoint = false ↔
            (s.host.locationHash ≠ []
              ∧ (s.restore lib (Story.dropHashSign s.host.locationHash)).2 = true
              ∧ s.restoreCheckpoints lib (Story.dropHashSign s.host.locationHash) = [])))
      ∧ (∀ (s : Story) (c : Call), s.atCheckpoint = false →
          (s.after lib c).atCheckpoint = true →
          c = Call.start ∨ (∃ name, c = Call.checkpoint name)
            ∨ s.callCheckpoints lib c ≠ []) :=
  ⟨fun s t x nh h => ((show_outcome lib s x nh).1 t h).1,
    fun s hash h => (restore_outcome lib s hash).2.1 h,
    fun s t h => start_atCheckpoint lib s t h,
    fun s c hs ht => after_atCheckpoint lib s c hs ht⟩

/-- Witness of C12 (amended). On `newStory` with passages without template code, a `show`
and a successful `restore` leave `atCheckpoint` false and the `start` without location
hash leaves it true; on `checkpointStory` the `show` of passage 2, whose template code
calls `checkpoint`, leaves it true. -/
theorem atCheckpoint_after_calls_witness :
    (∃ t, newStory.show (Lib.plain visitedRecord) (JVal.num 1) false = .ok t
        ∧ t.atCheckpoint = false)
      ∧ (newStory.restore (Lib.plain visitedRecord) "saved".toList).2 = true
      ∧ (newStory.restore (Lib.plain visitedRecord) "saved".toList).1.atCheckpoint = false
      ∧ (∃ t, newStory.start (Lib.plain visitedRecord) = .ok t ∧ ¬ t.atCheckpoint = false)
      ∧ (∃ t, checkpointStory.show (Lib.checkpointing freshRecord) (JVal.num 2) false = .ok t
        ∧ t.atCheckpoint = true) :=
  ⟨⟨_, rfl, (atCheckpoint_after_calls (Lib.plain visitedRecord)).1 newStory _
      (JVal.num 1) false rfl⟩,
    by decide,
    (atCheckpoint_after_calls (Lib.plain visitedRecord)).2.1 newStory "saved".toList
      (by decide),
    ⟨_, rfl, fun h =>
      absurd (((atCheckpoint_after_calls (Lib.plain visitedRecord)).2.2.1 newStory _ rfl).1 h).1
        (by decide)⟩,
    ⟨_, rfl, (atCheckpoint_after_calls (Lib.checkpointing freshRecord)).1 checkpointStory _
      (JVal.num 2) false rfl⟩⟩

/-- C12, counterexample. `newStory` has `atCheckpoint` false and no location hash. Its
`start` shows the start passage and then sets `atCheckpoint`: the call returns with
`atCheckpoint` true, after an operation that showed a passage and was no `checkpoint()`.
And on `checkpointStory`, `show(2)` clears `atCheckpoint` and then renders passage 2,
whose template code calls `checkpoint`: the `show` returns with `atCheckpoint` true. -/
theorem start_or_template_sets_atCheckpoint :
    newStory.atCheckpoint = false
      ∧ (∃ t, newStory.start (Lib.plain freshRecord) = .ok t
          ∧ t.history = some [JVal.num 1] ∧ t.atCheckpoint = true)
      ∧ (newStory.after (Lib.plain freshRecord) Call.start).atCheckpoint = true
      ∧ checkpointStory.atCheckpoint = false
      ∧ (∃ t, checkpointStory.show (Lib.checkpointing freshRecord) (JVal.num 2) false = .ok t
          ∧ t.history = some [JVal.num 2] ∧ t.atCheckpoint = true)
      ∧ (checkpointStory.after (Lib.checkpointing freshRecord)
          (Call.show (JVal.num 2) false)).atCheckpoint = true :=
  ⟨rfl, ⟨_, rfl, rfl, rfl⟩, rfl, rfl, ⟨_, rfl, rfl, rfl⟩, rfl⟩

/-- C13. Let `r` be the text before the Markdown pass, the output of the template with
both link rewrites applied, and `md` the Markdown converter, any function. When `r` does
not end in the closing paragraph tag with its newline and `md r` is `<p>X</p>` followed by
a newline, `render` returns exactly `X`. When `r` ends in `</p>` and a newline already, or
`md r` does not, `render` returns `md r` unchanged. -/
theorem render_strips_single_paragraph (lib : Lib) (p : Passage) (s : Story)
    (src : Option Str) (X : Str) :
    ("</p>\n".toList.isSuffixOf (p.preMarkdown lib s src) = false →
        lib.snarkdown (p.preMarkdown lib s src) = "<p>".toList ++ X ++ "</p>\n".toList →
        (p.render lib s src).1 = X)
      ∧ ("</p>\n".toList.isSuffixOf (p.preMarkdown lib s src) = true
          ∨ "</p>\n".toList.isSuffixOf (lib.snarkdown (p.preMarkdown lib s src)) = false →
        (p.render lib s src).1 = lib.snarkdown (p.preMarkdown lib s src)) := by
  constructor
  · intro hr hmd
    rw [render_text, hr, hmd, isSuffixOf_wrapped]
    simp only [Bool.not_false, Bool.and_self, if_true]
    exact stripParagraph_wrapped X
  · intro h
    rw [render_text]
    rcases h with h | h
    · rw [h]; rfl
    · rw [h, Bool.and_false]; rfl

/-- Witness of C13 on the passage `Hello`: a converter that wraps its input in a paragraph
is undone, and the output of a converter that wraps nothing is returned as it is. -/
theorem render_strips_single_paragraph_witness :
    (({ id := 1, name := "Start".toList, tags := [], source := "Hello".toList } : Passage).render
        (Lib.wrapping freshRecord) demoStory none).1 = "Hello".toList
      ∧ (({ id := 1, name := "Start".toList, tags := [], source := "Hello".toList } : Passage).render
        (Lib.plain freshRecord) demoStory none).1 = "Hello".toList :=
  ⟨(render_strips_single_paragraph (Lib.wrapping freshRecord)
      { id := 1, name := "Start".toList, tags := [], source := "Hello".toList }
      demoStory none "Hello".toList).1 (by decide) (by decide),
    (render_strips_single_paragraph (Lib.plain freshRecord)
      { id := 1, name := "Start".toList, tags := [], source := "Hello".toList }
      demoStory none []).2 (Or.inr (by decide))⟩

/-- C14. `visitedStory` has the history `[1, 3]`. Passage 1 occurs once in it and 999
resolves to no passage, so the counts of the references 1 and 999 are 1 and 0. `visits(1,
999)` returns `[1, 1]`: the variable `count` is assigned only when a reference resolves,
and the second entry repeats the count of the first. With one reference the count is
returned as a number, 0 for a reference that resolves to nothing. -/
theorem visits_repeats_count_of_previous :
    Utils.visits (Lib.plain visitedRecord) visitedStory [JVal.num 1, JVal.num 999]
        = .ok (VisitsResult.array [1, 1])
      ∧ visitedStory.passage (Lib.plain visitedRecord) (JVal.num 999) = Lookup.null
      ∧ [JVal.num 1, JVal.num 999].map (visitCount (Lib.plain visitedRecord) visitedStory)
        = [1, 0]
      ∧ Utils.visits (Lib.plain visitedRecord) visitedStory [JVal.num 3]
        = .ok (VisitsResult.number 1)
      ∧ Utils.visits (Lib.plain visitedRecord) visitedStory [JVal.num 999]
        = .ok (VisitsResult.number 0) :=
  ⟨rfl, by decide, by decide, rfl, rfl⟩

end Vanilja
